import Mathlib

/-!
# trx_lms7002m: verification of the LMS7002M transceiver driver

A shallow embedding of `src/trx_lms7002m.cpp`.

* C `int` values are `Int`; where a theorem depends on the 32-bit range the
  range is a hypothesis.
* The LimeSuite library is external.  Every `LMS_*` call is recorded in a trace
  of `HwEvent`s together with the status it returned; the status (and, for
  `LMS_RecvStream`, the timestamp written to the metadata) comes from a
  hardware model `Hw`, a function of the events so far and the call.
* Streams are named by direction and array index (`s->rx_stream[ch]`,
  `s->tx_stream[ch]`); the arrays have four entries in the source, and a store
  to an entry of index 4 or above is undefined (`none`).
* `double` values are bit patterns (`Dbl`); the floating-point operations the
  driver applies to them are the fields of `FloatOps`, taken as a parameter.
* `printf`/`fprintf` output is not modelled, nor is `LMS_GetLastErrorMessage`,
  which only fetches the text for such a message.  The
  `system("touch /dev/shm/LMSStreamingActive")` at the end of a successful
  start is the `marker` flag of `StartResult`.
* An uninitialised local that the code may read is an input of the model.
-/

namespace TrxLms7002m

/-! ## Data model -/

/-- The `SAMPLES_PER_PACKET` constant: complex samples in one packet. -/
def SAMPLES_PER_PACKET : Int := 1020

/-- A `double`, kept as its bit pattern. -/
abbrev Dbl := Nat

/-- The floating-point operations used by `trx_lms7002m_start`. -/
structure FloatOps where
  /-- `(int)(g + 0.5)` -/
  gain_dB : Dbl → Int
  /-- `(double)x` for an integer `x` -/
  of_int : Int → Dbl
  /-- `(double)(b > 5e6 ? b : 5e6)` for an integer `b` -/
  lpf_floor : Int → Dbl

/-- The `TRXFraction` type of `trx_driver.h`. -/
structure TRXFraction where
  num : Int
  den : Int
  deriving DecidableEq, Repr

/-- Sample formats of `lms_stream_t::dataFmt`. -/
inductive DataFmt
  | LMS_FMT_F32
  | LMS_FMT_I16
  | LMS_FMT_I12
  deriving DecidableEq, Repr

/-- The fields of `lms_stream_t` written by the driver.  `throughputVsLatency`
is the decimal literal of the source. -/
structure lms_stream_t where
  channel : Int
  fifoSize : Int
  throughputVsLatency : Rat
  dataFmt : DataFmt
  isTx : Bool
  deriving DecidableEq, Repr

/-- The `lms_stream_meta_t` type. -/
structure lms_stream_meta_t where
  timestamp : Nat
  waitForTimestamp : Bool
  flushPartialPacket : Bool
  deriving DecidableEq, Repr

/-- The driver context `TRXLmsState` (the device handle is opaque and omitted). -/
structure TRXLmsState where
  rx_stream : Nat → lms_stream_t
  tx_stream : Nat → lms_stream_t
  tcxo_calc : Int
  dec_inter : Int
  started : Int
  sample_rate : Int
  tx_channel_count : Int
  rx_channel_count : Int
  calibrate : Int
  ini_file : Int

/-- The outputs of `trx_lms7002m_get_sample_rate`: `*psample_rate` and
`*psample_rate_num`. -/
structure RateOut where
  psample_rate : TRXFraction
  psample_rate_num : Int
  deriving DecidableEq, Repr

/-! ## Sample-rate negotiation -/

/-- The table `sample_rate_tab`. -/
def sample_rate_tab : List Int := [1, 2, 4, 8, 12, 16]

/-- The `for` loop over `sample_rate_tab`, followed by the final `return -1`.
`out` holds the outputs as they were before the call. -/
def tab_search (sample_rate_min : Int) (out : RateOut) : List Int → Int × RateOut
  | [] => (-1, out)
  | n :: rest =>
    if sample_rate_min ≤ n * 1920000 then
      (0, { psample_rate := { num := n * 1920000, den := 1 }, psample_rate_num := n })
    else tab_search sample_rate_min out rest

/-- The loop
`for (sr = s->sample_rate; sr >= sample_rate_min && sr % 1000 == 0; sr >>= 1) psample_rate->num = sr;`
with `num` the current value of `psample_rate->num`.  `%` is C remainder and
`>>` the arithmetic shift.  `none` when the fuel runs out. -/
def halve_loop : Nat → Int → Int → Int → Option Int
  | 0, _, _, _ => none
  | fuel + 1, sr, sample_rate_min, num =>
    if sr ≥ sample_rate_min ∧ Int.tmod sr 1000 = 0 then
      halve_loop fuel (sr >>> (1 : Nat)) sample_rate_min sr
    else some num

/-- The function `trx_lms7002m_get_sample_rate`: the return value and the
outputs.  `none` when the halving loop does not finish within `fuel` tests. -/
def trx_lms7002m_get_sample_rate (fuel : Nat) (s : TRXLmsState) (out : RateOut)
    (sample_rate_min : Int) : Option (Int × RateOut) :=
  if s.sample_rate = 0 then
    some (tab_search sample_rate_min out sample_rate_tab)
  else
    match halve_loop fuel s.sample_rate sample_rate_min out.psample_rate.num with
    | none => none
    | some num =>
      some (0, { psample_rate := { num := num, den := 1 }, psample_rate_num := 0 })

/-! ## Packet size -/

/-- The function `trx_lms7002m_get_tx_samples_per_packet_func`.  Division by a
zero channel count is undefined in C: `none`. -/
def trx_lms7002m_get_tx_samples_per_packet_func (s : TRXLmsState) : Option Int :=
  if s.tx_channel_count = 0 then none
  else some (Int.tdiv SAMPLES_PER_PACKET s.tx_channel_count)

/-! ## Hardware model -/

/-- The calls into the LimeSuite library issued by the driver, with the
arguments the driver passes (the device handle omitted).  A stream argument
`&s->rx_stream[ch]` / `&s->tx_stream[ch]` is named by its array (`tx`) and
index. -/
inductive HwCall
  | EnableChannel (tx : Bool) (chan : Nat) (enabled : Bool)
  | SetGaindB (tx : Bool) (chan : Nat) (gain : Int)
  | SetSampleRate (rate : Int) (oversample : Int)
  | SetupStream (tx : Bool) (index : Nat) (stream : lms_stream_t)
  | SetLOFrequency (tx : Bool) (chan : Nat) (frequency : Dbl)
  | Calibrate (tx : Bool) (chan : Nat) (bw : Dbl) (flags : Int)
  | SetLPFBW (tx : Bool) (chan : Nat) (bandwidth : Dbl)
  | StartStream (tx : Bool) (index : Nat)
  | SendStream (index : Nat) (samples : Nat) (sample_count : Int)
      (md : lms_stream_meta_t) (timeout_ms : Int)
  | RecvStream (index : Nat) (samples : Nat) (sample_count : Int)
      (md : lms_stream_meta_t) (timeout_ms : Int)
  deriving DecidableEq, Repr

/-- What the library gives back: the returned status and, for
`LMS_RecvStream`, the timestamp it stores in the metadata. -/
structure HwReply where
  status : Int
  timestamp : Nat
  deriving DecidableEq, Repr

/-- One issued call with the status it returned. -/
structure HwEvent where
  call : HwCall
  status : Int
  deriving DecidableEq, Repr

/-- The hardware: the reply to a call, given the events issued so far. -/
abbrev Hw := List HwEvent → HwCall → HwReply

/-- The hardware as seen after the events `past`. -/
def Hw.after (hw : Hw) (past : List HwEvent) : Hw := fun tr c => hw (past ++ tr) c

/-- Issue a call whose result the driver does not use (or only logs). -/
def issue (hw : Hw) (tr : List HwEvent) (c : HwCall) : List HwEvent :=
  tr ++ [{ call := c, status := (hw tr c).status }]

/-- Issue a call and hand back its status. -/
def hw_call (hw : Hw) (tr : List HwEvent) (c : HwCall) : Int × List HwEvent :=
  ((hw tr c).status, issue hw tr c)

/-- Is the call an `LMS_StartStream`? -/
def HwCall.isStartStream : HwCall → Bool
  | .StartStream _ _ => true
  | _ => false

/-- Is the call an `LMS_SetupStream`? -/
def HwCall.isSetupStream : HwCall → Bool
  | .SetupStream _ _ _ => true
  | _ => false

/-- Is the call an `LMS_SetLOFrequency`? -/
def HwCall.isSetLOFrequency : HwCall → Bool
  | .SetLOFrequency _ _ _ => true
  | _ => false

/-- Is the call an `LMS_SetSampleRate`? -/
def HwCall.isSetSampleRate : HwCall → Bool
  | .SetSampleRate _ _ => true
  | _ => false

/-- The calls whose status `trx_lms7002m_start` tests: rate and LO. -/
def HwCall.isRateOrLO (c : HwCall) : Bool := c.isSetSampleRate || c.isSetLOFrequency

/-! ## Write -/

/-- The function `trx_lms7002m_write`: the context afterwards and the calls
issued.  `samples` is `none` for a null pointer, else the per-channel buffer
addresses `samples[ch]`. -/
def trx_lms7002m_write (hw : Hw) (s : TRXLmsState) (timestamp : Nat)
    (samples : Option (Nat → Nat)) (count : Int) (_flags : Int) (_rf_port_index : Int) :
    TRXLmsState × List HwEvent :=
  match samples with
  | none => (s, [])
  | some bufs =>
    let md : lms_stream_meta_t :=
      { waitForTimestamp := true, flushPartialPacket := false, timestamp := timestamp }
    (s, (List.range s.tx_channel_count.toNat).foldl
          (fun tr ch => issue hw tr (.SendStream ch (bufs ch) count md 30)) [])

/-! ## Read -/

/-- The arguments of `trx_lms7002m_read`, and the indeterminate initial values
of the locals `ret` and `meta.timestamp`, which the function reads when no
`LMS_RecvStream` assigns them. -/
structure ReadArgs where
  psamples : Nat → Nat
  count : Int
  port : Int
  ret0 : Int
  timestamp0 : Nat

/-- The outcome of `trx_lms7002m_read`: the return value, `*ptimestamp`, the
context afterwards and the calls issued. -/
structure ReadResult where
  ret : Int
  ptimestamp : Nat
  state : TRXLmsState
  trace : List HwEvent

/-- The "first shot" block of `trx_lms7002m_read`. -/
def start_streams (hw : Hw) (s : TRXLmsState) : TRXLmsState × List HwEvent :=
  if s.started = 0 then
    let tr := (List.range s.rx_channel_count.toNat).foldl
      (fun tr ch => issue hw tr (.StartStream false ch)) []
    let tr := (List.range s.tx_channel_count.toNat).foldl
      (fun tr ch => issue hw tr (.StartStream true ch)) tr
    ({ s with started := 1 }, tr)
  else (s, [])

/-- One iteration of the receive loop: `ret`, `meta` and the trace. -/
def recv_body (hw : Hw) (a : ReadArgs) (st : Int × lms_stream_meta_t × List HwEvent)
    (ch : Nat) : Int × lms_stream_meta_t × List HwEvent :=
  let c := HwCall.RecvStream ch (a.psamples ch) a.count st.2.1 30
  let rep := hw st.2.2 c
  (rep.status, { st.2.1 with timestamp := rep.timestamp },
    st.2.2 ++ [{ call := c, status := rep.status }])

/-- The function `trx_lms7002m_read`. -/
def trx_lms7002m_read (hw : Hw) (s : TRXLmsState) (a : ReadArgs) : ReadResult :=
  let md : lms_stream_meta_t :=
    { waitForTimestamp := false, flushPartialPacket := false, timestamp := a.timestamp0 }
  let st := start_streams hw s
  let r := (List.range st.1.rx_channel_count.toNat).foldl (recv_body hw a) (a.ret0, md, st.2)
  { ret := r.1, ptimestamp := r.2.1.timestamp, state := st.1, trace := r.2.2 }

/-- A sequence of `trx_lms7002m_read` calls on one context: each call sees the
context left by the one before and the hardware after the earlier events. -/
def read_seq (hw : Hw) (s : TRXLmsState) : List ReadArgs → List ReadResult
  | [] => []
  | a :: rest =>
    let r := trx_lms7002m_read hw s a
    r :: read_seq (hw.after r.trace) r.state rest

/-! ## Start -/

/-- The fields of `TRXDriverParams` read by `trx_lms7002m_start`; arrays are
functions of the index. -/
structure TRXDriverParams where
  rf_port_count : Int
  sample_rate : Nat → TRXFraction
  tx_channel_count : Int
  rx_channel_count : Int
  rx_gain : Nat → Dbl
  tx_gain : Nat → Dbl
  rx_freq : Nat → Int
  tx_freq : Nat → Int
  rx_bandwidth : Nat → Int
  tx_bandwidth : Nat → Int

/-- The outcome of `trx_lms7002m_start`: the return value, the context
afterwards, the calls issued, and whether the marker file was touched. -/
structure StartResult where
  ret : Int
  state : TRXLmsState
  trace : List HwEvent
  marker : Bool

/-- Conversion of a value to `int` (two's complement, 32 bits). -/
def to_int32 (x : Int) : Int := (x + 2147483648) % 4294967296 - 2147483648

/-- Body of the enable/gain loop (source lines 170-177). -/
def enable_gain_body (fp : FloatOps) (hw : Hw) (p : TRXDriverParams)
    (tr : List HwEvent) (ch : Nat) : List HwEvent :=
  let tr := issue hw tr (.EnableChannel false ch true)
  let tr := issue hw tr (.EnableChannel true ch true)
  let tr := issue hw tr (.SetGaindB false ch (fp.gain_dB (p.rx_gain ch)))
  issue hw tr (.SetGaindB true ch (fp.gain_dB (p.tx_gain ch)))

/-- Body of the RX stream setup loop (source lines 192-201).  `rx_stream` has
four entries: the stores to `s->rx_stream[ch]` for `ch ≥ 4` fall outside the
array and are undefined, `none`. -/
def setup_rx_body (hw : Hw) (st : TRXLmsState × List HwEvent) (ch : Nat) :
    Option (TRXLmsState × List HwEvent) :=
  if ch < 4 then
    let stream : lms_stream_t :=
      { channel := ch, fifoSize := 128 * 1024, throughputVsLatency := 3 / 10,
        dataFmt := .LMS_FMT_F32, isTx := false }
    let s : TRXLmsState := { st.1 with rx_stream := Function.update st.1.rx_stream ch stream }
    some (s, issue hw st.2 (.SetupStream false ch (s.rx_stream ch)))
  else none

/-- Body of the TX stream setup loop (source lines 203-212).  `tx_stream` has
four entries: the stores to `s->tx_stream[ch]` for `ch ≥ 4` fall outside the
array and are undefined, `none`. -/
def setup_tx_body (hw : Hw) (st : TRXLmsState × List HwEvent) (ch : Nat) :
    Option (TRXLmsState × List HwEvent) :=
  if ch < 4 then
    let stream : lms_stream_t :=
      { channel := ch, fifoSize := 128 * 1024, throughputVsLatency := 3 / 10,
        dataFmt := .LMS_FMT_F32, isTx := true }
    let s : TRXLmsState := { st.1 with tx_stream := Function.update st.1.tx_stream ch stream }
    some (s, issue hw st.2 (.SetupStream true ch (s.tx_stream ch)))
  else none

/-- Body of the TX calibration loop (source lines 246-254); a failure is
only logged. -/
def calibrate_tx_body (fp : FloatOps) (hw : Hw) (p : TRXDriverParams)
    (tr : List HwEvent) (ch : Nat) : List HwEvent :=
  let tr := issue hw tr (.Calibrate true ch (fp.of_int (p.tx_bandwidth 0)) 0)
  let tr := issue hw tr (.SetLPFBW true ch (fp.lpf_floor (p.tx_bandwidth 0)))
  issue hw tr (.SetGaindB true ch (fp.gain_dB (p.tx_gain ch)))

/-- Body of the RX calibration loop (source lines 256-263); a failure is
only logged. -/
def calibrate_rx_body (fp : FloatOps) (hw : Hw) (p : TRXDriverParams)
    (tr : List HwEvent) (ch : Nat) : List HwEvent :=
  let tr := issue hw tr (.Calibrate false ch (fp.of_int (p.rx_bandwidth 0)) 0)
  issue hw tr (.SetLPFBW false ch (fp.of_int (p.rx_bandwidth 0)))

/-- The calibration block (source lines 244-264). -/
def calibrate_all (fp : FloatOps) (hw : Hw) (s : TRXLmsState) (p : TRXDriverParams)
    (tr : List HwEvent) : List HwEvent :=
  if s.calibrate ≠ 0 then
    let tr := (List.range s.tx_channel_count.toNat).foldl (calibrate_tx_body fp hw p) tr
    (List.range s.rx_channel_count.toNat).foldl (calibrate_rx_body fp hw p) tr
  else tr

/-- The pattern `if (LMS_X(...) != 0) { fprintf(stderr, ...); return -1; }`
followed by the rest `k` of the function (`none` when the rest is undefined). -/
def tested (hw : Hw) (s : TRXLmsState) (tr : List HwEvent) (c : HwCall)
    (k : List HwEvent → Option StartResult) : Option StartResult :=
  let r := hw_call hw tr c
  if r.1 ≠ 0 then some { ret := -1, state := s, trace := r.2, marker := false } else k r.2

/-- The end of `trx_lms7002m_start`: calibration, the marker file and
`return 0` (source lines 244-268). -/
def start_finish (fp : FloatOps) (hw : Hw) (s : TRXLmsState) (p : TRXDriverParams)
    (tr : List HwEvent) : Option StartResult :=
  some { ret := 0, state := s, trace := calibrate_all fp hw s p tr, marker := true }

/-- The TX group-2 LO block and what follows (source lines 235-268). -/
def set_lo_tx2 (fp : FloatOps) (hw : Hw) (s : TRXLmsState) (p : TRXDriverParams)
    (tr : List HwEvent) : Option StartResult :=
  if s.tx_channel_count > 2 then
    tested hw s tr (.SetLOFrequency true 2 (fp.of_int (p.tx_freq 0))) (start_finish fp hw s p)
  else start_finish fp hw s p tr

/-- The RX group-2 LO block and what follows (source lines 226-268). -/
def set_lo_rx2 (fp : FloatOps) (hw : Hw) (s : TRXLmsState) (p : TRXDriverParams)
    (tr : List HwEvent) : Option StartResult :=
  if s.rx_channel_count > 2 then
    tested hw s tr (.SetLOFrequency false 2 (fp.of_int (p.rx_freq 0))) (set_lo_tx2 fp hw s p)
  else set_lo_tx2 fp hw s p tr

/-- The LO-frequency blocks and the rest of `trx_lms7002m_start` (source lines
214-268). -/
def set_lo_and_finish (fp : FloatOps) (hw : Hw) (s : TRXLmsState) (p : TRXDriverParams)
    (tr : List HwEvent) : Option StartResult :=
  tested hw s tr (.SetLOFrequency false 0 (fp.of_int (p.rx_freq 0))) fun tr =>
    tested hw s tr (.SetLOFrequency true 0 (fp.of_int (p.tx_freq 0))) (set_lo_rx2 fp hw s p)

/-- The stream setup loops, RX then TX, and the rest of `trx_lms7002m_start`
(source lines 192-268); `none` as soon as a loop stores outside its array. -/
def setup_streams_and_finish (fp : FloatOps) (hw : Hw) (s : TRXLmsState)
    (p : TRXDriverParams) (tr : List HwEvent) : Option StartResult :=
  match (List.range s.rx_channel_count.toNat).foldlM (setup_rx_body hw) (s, tr) with
  | none => none
  | some st1 =>
    match (List.range st1.1.tx_channel_count.toNat).foldlM (setup_tx_body hw) st1 with
    | none => none
    | some st2 => set_lo_and_finish fp hw st2.1 p st2.2

/-- The three assignments to the context at the top of `trx_lms7002m_start`
(source lines 164-166). -/
def start_state (s : TRXLmsState) (p : TRXDriverParams) : TRXLmsState :=
  { s with
    sample_rate := to_int32 (Int.tdiv (p.sample_rate 0).num (p.sample_rate 0).den)
    tx_channel_count := p.tx_channel_count
    rx_channel_count := p.rx_channel_count }

/-- The function `trx_lms7002m_start`.  `none` when the run is undefined: the
division `p->sample_rate[0].num / p->sample_rate[0].den` is by zero, or a
setup loop stores outside `rx_stream` / `tx_stream`. -/
def trx_lms7002m_start (fp : FloatOps) (hw : Hw) (s : TRXLmsState) (p : TRXDriverParams) :
    Option StartResult :=
  if p.rf_port_count ≠ 1 then
    some { ret := -1, state := s, trace := [], marker := false }
  else if (p.sample_rate 0).den = 0 then none
  else
    let s : TRXLmsState := start_state s p
    let tr : List HwEvent :=
      if s.ini_file = 0 then
        (List.range s.rx_channel_count.toNat).foldl (enable_gain_body fp hw p) []
      else []
    tested hw s tr (.SetSampleRate s.sample_rate s.dec_inter)
      (setup_streams_and_finish fp hw s p)

/-! ## Call sequences named in the properties -/

/-- The record the setup loops store in `rx_stream[ch]` / `tx_stream[ch]`. -/
def stream_config (tx : Bool) (ch : Nat) : lms_stream_t :=
  { channel := ch, fifoSize := 131072, throughputVsLatency := 3 / 10,
    dataFmt := .LMS_FMT_F32, isTx := tx }

/-- Enable and gain calls for channel indices `0..n-1`, RX and TX of each index
together. -/
def enable_gain_calls (fp : FloatOps) (p : TRXDriverParams) (n : Nat) : List HwCall :=
  (List.range n).flatMap fun ch =>
    [.EnableChannel false ch true, .EnableChannel true ch true,
     .SetGaindB false ch (fp.gain_dB (p.rx_gain ch)),
     .SetGaindB true ch (fp.gain_dB (p.tx_gain ch))]

/-- One `LMS_SetupStream` for each index `0..n-1` of one direction. -/
def setup_calls (tx : Bool) (n : Nat) : List HwCall :=
  (List.range n).map fun ch => .SetupStream tx ch (stream_config tx ch)

/-- The LO-frequency calls of a request: RX group 0, TX group 0, RX group 2 when
more than two RX channels, TX group 2 when more than two TX channels. -/
def lo_calls (fp : FloatOps) (p : TRXDriverParams) : List HwCall :=
  [.SetLOFrequency false 0 (fp.of_int (p.rx_freq 0)),
   .SetLOFrequency true 0 (fp.of_int (p.tx_freq 0))] ++
  (if p.rx_channel_count > 2 then [.SetLOFrequency false 2 (fp.of_int (p.rx_freq 0))]
   else []) ++
  (if p.tx_channel_count > 2 then [.SetLOFrequency true 2 (fp.of_int (p.tx_freq 0))]
   else [])

/-- Calibration, filter and gain calls: TX indices `0..tx-1`, then RX indices
`0..rx-1`. -/
def calibrate_calls (fp : FloatOps) (p : TRXDriverParams) (rx tx : Nat) : List HwCall :=
  ((List.range tx).flatMap fun ch =>
    [.Calibrate true ch (fp.of_int (p.tx_bandwidth 0)) 0,
     .SetLPFBW true ch (fp.lpf_floor (p.tx_bandwidth 0)),
     .SetGaindB true ch (fp.gain_dB (p.tx_gain ch))]) ++
  ((List.range rx).flatMap fun ch =>
    [.Calibrate false ch (fp.of_int (p.rx_bandwidth 0)) 0,
     .SetLPFBW false ch (fp.of_int (p.rx_bandwidth 0))])

/-- The whole call sequence of a `trx_lms7002m_start` run in which no tested
call fails, for context `s` and request `p`. -/
def start_calls (fp : FloatOps) (s : TRXLmsState) (p : TRXDriverParams) : List HwCall :=
  (if s.ini_file = 0 then enable_gain_calls fp p p.rx_channel_count.toNat else []) ++
  [.SetSampleRate (to_int32 (Int.tdiv (p.sample_rate 0).num (p.sample_rate 0).den))
      s.dec_inter] ++
  setup_calls false p.rx_channel_count.toNat ++
  setup_calls true p.tx_channel_count.toNat ++
  lo_calls fp p ++
  (if s.calibrate ≠ 0 then
     calibrate_calls fp p p.rx_channel_count.toNat p.tx_channel_count.toNat
   else [])

/-- One `LMS_StartStream` per RX index `0..rx-1`, then one per TX index
`0..tx-1`. -/
def start_stream_calls (rx tx : Nat) : List HwCall :=
  ((List.range rx).map fun ch => HwCall.StartStream false ch) ++
  ((List.range tx).map fun ch => HwCall.StartStream true ch)

/-- One `LMS_SendStream` per TX index `0..tx-1`, ascending, each with the
caller's count and timestamp, `waitForTimestamp = true`,
`flushPartialPacket = false` and timeout 30. -/
def send_calls (timestamp : Nat) (bufs : Nat → Nat) (count : Int) (tx : Nat) :
    List HwCall :=
  (List.range tx).map fun ch =>
    HwCall.SendStream ch (bufs ch) count
      { timestamp := timestamp, waitForTimestamp := true, flushPartialPacket := false } 30

/-- Every tested (rate or LO) call among the events succeeded. -/
def TestedOk (ev : List HwEvent) : Prop :=
  ∀ e ∈ ev, e.call.isRateOrLO = true → e.status = 0

/-- The events end at the first failing tested call. -/
def StopsAtFailure (ev : List HwEvent) : Prop :=
  ∃ pre e, ev = pre ++ [e] ∧ e.call.isRateOrLO = true ∧ e.status ≠ 0 ∧ TestedOk pre

/-- Every status among the events is the reply the hardware `hw` gives to that
call after the events before it. -/
def HwConsistent (hw : Hw) (ev : List HwEvent) : Prop :=
  ∀ pre e post, ev = pre ++ e :: post → e.status = (hw pre e.call).status

/-- A function on traces keeps them consistent with the hardware. -/
def Keeps (hw : Hw) (f : List HwEvent → List HwEvent) : Prop :=
  ∀ tr, HwConsistent hw tr → HwConsistent hw (f tr)

/-- A (tail of a) run keeps the trace consistent with the hardware. -/
def KeepsRun (hw : Hw) (k : List HwEvent → Option StartResult) : Prop :=
  ∀ tr r, k tr = some r → HwConsistent hw tr → HwConsistent hw r.trace

/-- A function on traces only appends events, and their calls are `cs`. -/
def Appends (f : List HwEvent → List HwEvent) (cs : List HwCall) : Prop :=
  ∀ tr, ∃ ev, f tr = tr ++ ev ∧ ev.map HwEvent.call = cs

/-- Summary of a run against the planned call sequence `plan`: the calls
issued are an initial part of the plan; either the run returned 0, issued the
whole plan, every tested call succeeded and the marker was touched, or it
returned -1 and the events end at the first failing tested call. -/
def RunOutcome (plan : List HwCall) (ev : List HwEvent) (ret : Int) (marker : Bool) : Prop :=
  ∃ rest, plan = ev.map HwEvent.call ++ rest ∧
    ((ret = 0 ∧ rest = [] ∧ TestedOk ev ∧ marker = true) ∨
     (ret = -1 ∧ StopsAtFailure ev ∧ marker = false))

/-- A run of (a tail of) `trx_lms7002m_start` entered with trace `tr` returns,
only appends events, and they are summarised by `RunOutcome` against `plan`. -/
def Runs (o : Option StartResult) (tr : List HwEvent) (plan : List HwCall) : Prop :=
  ∃ r, o = some r ∧ ∃ ev, r.trace = tr ++ ev ∧ RunOutcome plan ev r.ret r.marker

/-! ## Concrete contexts and requests -/

/-- The stream record after `memset(s, 0, sizeof(*s))`. -/
def zero_stream : lms_stream_t :=
  { channel := 0, fifoSize := 0, throughputVsLatency := 0, dataFmt := .LMS_FMT_F32,
    isTx := false }

/-- The context as `trx_driver_init` leaves it with no parameter set and no
configuration file: everything zero, calibration on. -/
def init_state : TRXLmsState :=
  { rx_stream := fun _ => zero_stream, tx_stream := fun _ => zero_stream,
    tcxo_calc := -1, dec_inter := 0, started := 0, sample_rate := 0,
    tx_channel_count := 0, rx_channel_count := 0, calibrate := 1, ini_file := 0 }

/-- A hardware on which every call succeeds and timestamps are zero. -/
def hw_ok : Hw := fun _ _ => { status := 0, timestamp := 0 }

/-- A hardware on which stream creation fails and every other call succeeds. -/
def hw_setup_fails : Hw := fun _ c =>
  { status := if c.isSetupStream then -1 else 0, timestamp := 0 }

/-- A hardware on which the sample-rate call fails and every other call
succeeds. -/
def hw_rate_fails : Hw := fun _ c =>
  { status := if c.isSetSampleRate then -1 else 0, timestamp := 0 }

/-- A hardware on which the LO call for TX group 2 fails and every other call
succeeds. -/
def hw_lo_tx2_fails : Hw := fun _ c =>
  { status := match c with
      | .SetLOFrequency true 2 _ => -1
      | _ => 0,
    timestamp := 0 }

/-- Floating-point operations standing in for the real ones on concrete runs:
bit patterns are read as integers. -/
def fp_id : FloatOps :=
  { gain_dB := fun g => g, of_int := fun x => x.toNat, lpf_floor := fun b => (max b 5000000).toNat }

/-- A start request for one RF port with the given channel counts at
30.72 MHz. -/
def request (rx tx : Int) : TRXDriverParams :=
  { rf_port_count := 1, sample_rate := fun _ => { num := 30720000, den := 1 },
    tx_channel_count := tx, rx_channel_count := rx,
    rx_gain := fun _ => 40, tx_gain := fun _ => 50,
    rx_freq := fun _ => 2680000000, tx_freq := fun _ => 2560000000,
    rx_bandwidth := fun _ => 20000000, tx_bandwidth := fun _ => 20000000 }

/-! ## Helper lemmas: sample-rate negotiation -/

/-- Specification of `halve_loop` once the loop body has been entered: the
result is the last value of the halving chain that passes the loop test. -/
theorem halve_loop_spec (fuel : Nat) :
    ∀ (sr m num : Int), 0 < sr → sr < 2 ^ fuel →
      ∃ r, halve_loop fuel sr m num = some r ∧
        ((sr ≥ m ∧ Int.tmod sr 1000 = 0) →
          (∃ k : Nat, r = sr >>> k) ∧ Int.tmod r 1000 = 0 ∧ m ≤ r ∧ r ≤ sr ∧
            ¬ ((r >>> (1 : Nat)) ≥ m ∧ Int.tmod (r >>> (1 : Nat)) 1000 = 0)) ∧
        (¬ (sr ≥ m ∧ Int.tmod sr 1000 = 0) → r = num) := by
  induction fuel with
  | zero =>
    intro sr m num h0 h1
    simp at h1
    omega
  | succ fuel ih =>
    intro sr m num h0 h1
    by_cases hc : sr ≥ m ∧ Int.tmod sr 1000 = 0
    · have hdvd : (1000 : Int) ∣ sr := Int.dvd_of_tmod_eq_zero hc.2
      have hhalf : sr >>> (1 : Nat) = sr / 2 := by
        rw [Int.shiftRight_eq_div_pow]; norm_num
      have hpos : 0 < sr >>> (1 : Nat) := by rw [hhalf]; omega
      have hlt : sr >>> (1 : Nat) < 2 ^ fuel := by
        rw [hhalf]
        have : (2 : Int) ^ (fuel + 1) = 2 * 2 ^ fuel := by ring
        omega
      obtain ⟨r, hr, hin, hout⟩ := ih (sr >>> (1 : Nat)) m sr hpos hlt
      refine ⟨r, ?_, ?_, ?_⟩
      · simp only [halve_loop, if_pos hc]
        exact hr
      · intro _
        by_cases hc2 : (sr >>> (1 : Nat)) ≥ m ∧ Int.tmod (sr >>> (1 : Nat)) 1000 = 0
        · obtain ⟨⟨k, hk⟩, h1000, hm, hle, hlast⟩ := hin hc2
          refine ⟨⟨1 + k, ?_⟩, h1000, hm, ?_, hlast⟩
          · rw [hk, Int.shiftRight_add]
          · rw [hhalf] at hle; omega
        · have hrs : r = sr := hout hc2
          subst hrs
          exact ⟨⟨0, by rw [Int.shiftRight_eq_div_pow]; simp⟩, hc.2, hc.1, le_refl _, hc2⟩
      · intro hn
        exact absurd hc hn
    · refine ⟨num, ?_, ?_, ?_⟩
      · simp only [halve_loop, if_neg hc]
      · intro h
        exact absurd h hc
      · intro _
        rfl

/-- More fuel does not change a result of `halve_loop`. -/
theorem halve_loop_mono (fuel : Nat) :
    ∀ (extra : Nat) (sr m num r : Int), halve_loop fuel sr m num = some r →
      halve_loop (fuel + extra) sr m num = some r := by
  induction fuel with
  | zero =>
    intro extra sr m num r h
    simp [halve_loop] at h
  | succ fuel ih =>
    intro extra sr m num r h
    have e : fuel + 1 + extra = (fuel + extra) + 1 := by omega
    rw [e]
    by_cases hc : sr ≥ m ∧ Int.tmod sr 1000 = 0
    · simp only [halve_loop, if_pos hc] at h ⊢
      exact ih extra _ _ _ _ h
    · simp only [halve_loop, if_neg hc] at h ⊢
      exact h

/-- When the configured rate is non-zero and below the minimum, the loop body
never runs: the function returns 0, sets the denominator and the rate index,
and leaves the numerator as it was before the call. -/
theorem get_sample_rate_undershoot (fuel : Nat) (s : TRXLmsState) (out : RateOut) (m : Int)
    (hne : s.sample_rate ≠ 0) (hlt : s.sample_rate < m) :
    trx_lms7002m_get_sample_rate (fuel + 1) s out m =
      some (0, { psample_rate := { num := out.psample_rate.num, den := 1 },
                 psample_rate_num := 0 }) := by
  have hc : ¬ (s.sample_rate ≥ m ∧ Int.tmod s.sample_rate 1000 = 0) := by
    intro h
    omega
  simp only [trx_lms7002m_get_sample_rate, if_neg hne, halve_loop, if_neg hc]

/-! ## Helper lemmas: traces -/

theorem appends_issue (hw : Hw) (c : HwCall) : Appends (fun tr => issue hw tr c) [c] := by
  intro tr
  exact ⟨[{ call := c, status := (hw tr c).status }], rfl, rfl⟩

/-- Two appending steps in sequence append the concatenated calls. -/
theorem appends_comp {f g : List HwEvent → List HwEvent} {cs ds : List HwCall}
    (hf : Appends f cs) (hg : Appends g ds) : Appends (fun tr => g (f tr)) (cs ++ ds) := by
  intro tr
  obtain ⟨e1, h1, c1⟩ := hf tr
  obtain ⟨e2, h2, c2⟩ := hg (f tr)
  refine ⟨e1 ++ e2, ?_, ?_⟩
  · show g (f tr) = tr ++ (e1 ++ e2)
    rw [h2, h1, List.append_assoc]
  · rw [List.map_append, c1, c2]

/-- A loop whose body appends the calls `cs ch` appends them for each index in turn. -/
theorem appends_foldl (body : List HwEvent → Nat → List HwEvent) (cs : Nat → List HwCall)
    (hb : ∀ ch, Appends (fun tr => body tr ch) (cs ch)) :
    ∀ l : List Nat, Appends (fun tr => l.foldl body tr) (l.flatMap cs) := by
  intro l
  induction l with
  | nil =>
    intro tr
    exact ⟨[], by simp, rfl⟩
  | cons ch l ih =>
    have h := appends_comp (hb ch) ih
    intro tr
    obtain ⟨ev, h1, h2⟩ := h tr
    exact ⟨ev, by simpa using h1, by simpa using h2⟩

/-- Collecting singletons is mapping. -/
theorem flatMap_single {α β : Type} (f : α → β) (l : List α) :
    (l.flatMap fun x => [f x]) = l.map f := by
  induction l with
  | nil => rfl
  | cons x l ih => simp [List.flatMap_cons, ih]

/-- A loop issuing one call per index. -/
theorem appends_foldl_issue (hw : Hw) (f : Nat → HwCall) (l : List Nat) :
    Appends (fun tr => l.foldl (fun tr ch => issue hw tr (f ch)) tr) (l.map f) := by
  have h := appends_foldl (fun tr ch => issue hw tr (f ch)) (fun ch => [f ch])
    (fun _ => appends_issue hw _) l
  rw [flatMap_single] at h
  exact h

/-- The calls of the enable/gain loop. -/
theorem appends_enable_gain (fp : FloatOps) (hw : Hw) (p : TRXDriverParams) (n : Nat) :
    Appends (fun tr => (List.range n).foldl (enable_gain_body fp hw p) tr)
      (enable_gain_calls fp p n) := by
  apply appends_foldl
  intro ch
  exact appends_comp (appends_comp (appends_comp (appends_issue hw _) (appends_issue hw _))
    (appends_issue hw _)) (appends_issue hw _)

/-- The calls of the TX calibration loop. -/
theorem appends_calibrate_tx (fp : FloatOps) (hw : Hw) (p : TRXDriverParams) (n : Nat) :
    Appends (fun tr => (List.range n).foldl (calibrate_tx_body fp hw p) tr)
      ((List.range n).flatMap fun ch =>
        [.Calibrate true ch (fp.of_int (p.tx_bandwidth 0)) 0,
         .SetLPFBW true ch (fp.lpf_floor (p.tx_bandwidth 0)),
         .SetGaindB true ch (fp.gain_dB (p.tx_gain ch))]) := by
  apply appends_foldl
  intro ch
  exact appends_comp (appends_comp (appends_issue hw _) (appends_issue hw _))
    (appends_issue hw _)

/-- The calls of the RX calibration loop. -/
theorem appends_calibrate_rx (fp : FloatOps) (hw : Hw) (p : TRXDriverParams) (n : Nat) :
    Appends (fun tr => (List.range n).foldl (calibrate_rx_body fp hw p) tr)
      ((List.range n).flatMap fun ch =>
        [.Calibrate false ch (fp.of_int (p.rx_bandwidth 0)) 0,
         .SetLPFBW false ch (fp.of_int (p.rx_bandwidth 0))]) := by
  apply appends_foldl
  intro ch
  exact appends_comp (appends_issue hw _) (appends_issue hw _)

/-- The calls of the calibration block. -/
theorem appends_calibrate_all (fp : FloatOps) (hw : Hw) (s : TRXLmsState)
    (p : TRXDriverParams) :
    Appends (calibrate_all fp hw s p)
      (if s.calibrate ≠ 0 then
         calibrate_calls fp p s.rx_channel_count.toNat s.tx_channel_count.toNat
       else []) := by
  by_cases hc : s.calibrate ≠ 0
  · have h := appends_comp (appends_calibrate_tx fp hw p s.tx_channel_count.toNat)
      (appends_calibrate_rx fp hw p s.rx_channel_count.toNat)
    intro tr
    obtain ⟨ev, h1, h2⟩ := h tr
    refine ⟨ev, ?_, ?_⟩
    · simp only [calibrate_all, if_pos hc]
      exact h1
    · simp only [if_pos hc, calibrate_calls]
      exact h2
  · intro tr
    exact ⟨[], by simp only [calibrate_all, if_neg hc, List.append_nil],
      by simp only [if_neg hc, List.map_nil]⟩

/-- The RX setup loop, when it finishes: its trace is that of a plain issuing
loop, and it changes no field of the context other than `rx_stream`. -/
theorem setup_rx_fold (hw : Hw) :
    ∀ (l : List Nat) (s : TRXLmsState) (tr : List HwEvent) (st : TRXLmsState × List HwEvent),
      l.foldlM (setup_rx_body hw) (s, tr) = some st →
        st.2 = l.foldl
          (fun tr ch => issue hw tr (.SetupStream false ch (stream_config false ch))) tr ∧
        st.1 = { s with rx_stream := st.1.rx_stream } := by
  intro l
  induction l with
  | nil =>
    intro s tr st h
    simp only [List.foldlM_nil] at h
    cases h
    exact ⟨rfl, rfl⟩
  | cons ch l ih =>
    intro s tr st h
    simp only [List.foldlM_cons] at h
    by_cases hch : ch < 4
    · simp only [setup_rx_body, if_pos hch, Option.bind_eq_bind, Option.some_bind] at h
      obtain ⟨h1, h2⟩ := ih _ _ st h
      constructor
      · rw [h1]
        simp [stream_config]
      · conv_lhs => rw [h2]
    · simp [setup_rx_body, hch] at h

/-- The TX setup loop, when it finishes: its trace is that of a plain issuing
loop, and it changes no field of the context other than `tx_stream`. -/
theorem setup_tx_fold (hw : Hw) :
    ∀ (l : List Nat) (s : TRXLmsState) (tr : List HwEvent) (st : TRXLmsState × List HwEvent),
      l.foldlM (setup_tx_body hw) (s, tr) = some st →
        st.2 = l.foldl
          (fun tr ch => issue hw tr (.SetupStream true ch (stream_config true ch))) tr ∧
        st.1 = { s with tx_stream := st.1.tx_stream } := by
  intro l
  induction l with
  | nil =>
    intro s tr st h
    simp only [List.foldlM_nil] at h
    cases h
    exact ⟨rfl, rfl⟩
  | cons ch l ih =>
    intro s tr st h
    simp only [List.foldlM_cons] at h
    by_cases hch : ch < 4
    · simp only [setup_tx_body, if_pos hch, Option.bind_eq_bind, Option.some_bind] at h
      obtain ⟨h1, h2⟩ := ih _ _ st h
      constructor
      · rw [h1]
        simp [stream_config]
      · conv_lhs => rw [h2]
    · simp [setup_tx_body, hch] at h

/-- The RX setup loop finishes when every index is inside the array. -/
theorem setup_rx_defined (hw : Hw) :
    ∀ (l : List Nat) (st : TRXLmsState × List HwEvent), (∀ ch ∈ l, ch < 4) →
      ∃ st1, l.foldlM (setup_rx_body hw) st = some st1 := by
  intro l
  induction l with
  | nil =>
    intro st _
    exact ⟨st, rfl⟩
  | cons ch l ih =>
    intro st hl
    have hch : ch < 4 := hl ch (by simp)
    have hb : ∃ st0, setup_rx_body hw st ch = some st0 := by
      simp only [setup_rx_body, if_pos hch]
      exact ⟨_, rfl⟩
    obtain ⟨st0, hb⟩ := hb
    obtain ⟨st1, h1⟩ := ih st0 (fun c hc => hl c (by simp [hc]))
    refine ⟨st1, ?_⟩
    simp only [List.foldlM_cons, hb, Option.bind_eq_bind, Option.some_bind]
    exact h1

/-- The TX setup loop finishes when every index is inside the array. -/
theorem setup_tx_defined (hw : Hw) :
    ∀ (l : List Nat) (st : TRXLmsState × List HwEvent), (∀ ch ∈ l, ch < 4) →
      ∃ st1, l.foldlM (setup_tx_body hw) st = some st1 := by
  intro l
  induction l with
  | nil =>
    intro st _
    exact ⟨st, rfl⟩
  | cons ch l ih =>
    intro st hl
    have hch : ch < 4 := hl ch (by simp)
    have hb : ∃ st0, setup_tx_body hw st ch = some st0 := by
      simp only [setup_tx_body, if_pos hch]
      exact ⟨_, rfl⟩
    obtain ⟨st0, hb⟩ := hb
    obtain ⟨st1, h1⟩ := ih st0 (fun c hc => hl c (by simp [hc]))
    refine ⟨st1, ?_⟩
    simp only [List.foldlM_cons, hb, Option.bind_eq_bind, Option.some_bind]
    exact h1

/-- The RX setup loop is undefined when an index is outside the array. -/
theorem setup_rx_overrun (hw : Hw) :
    ∀ (l : List Nat) (st : TRXLmsState × List HwEvent), (∃ ch ∈ l, 4 ≤ ch) →
      l.foldlM (setup_rx_body hw) st = none := by
  intro l
  induction l with
  | nil =>
    intro st h
    obtain ⟨ch, hch, _⟩ := h
    simp at hch
  | cons ch l ih =>
    intro st h
    simp only [List.foldlM_cons]
    by_cases hch : ch < 4
    · simp only [setup_rx_body, if_pos hch, Option.bind_eq_bind, Option.some_bind]
      apply ih
      obtain ⟨c, hc, h4⟩ := h
      simp only [List.mem_cons] at hc
      rcases hc with hc | hc
      · omega
      · exact ⟨c, hc, h4⟩
    · simp [setup_rx_body, hch]

/-- The TX setup loop is undefined when an index is outside the array. -/
theorem setup_tx_overrun (hw : Hw) :
    ∀ (l : List Nat) (st : TRXLmsState × List HwEvent), (∃ ch ∈ l, 4 ≤ ch) →
      l.foldlM (setup_tx_body hw) st = none := by
  intro l
  induction l with
  | nil =>
    intro st h
    obtain ⟨ch, hch, _⟩ := h
    simp at hch
  | cons ch l ih =>
    intro st h
    simp only [List.foldlM_cons]
    by_cases hch : ch < 4
    · simp only [setup_tx_body, if_pos hch, Option.bind_eq_bind, Option.some_bind]
      apply ih
      obtain ⟨c, hc, h4⟩ := h
      simp only [List.mem_cons] at hc
      rcases hc with hc | hc
      · omega
      · exact ⟨c, hc, h4⟩
    · simp [setup_tx_body, hch]

/-- The calls of a stream setup loop. -/
theorem appends_setup (hw : Hw) (tx : Bool) (n : Nat) :
    Appends (fun tr => (List.range n).foldl
        (fun tr ch => issue hw tr (.SetupStream tx ch (stream_config tx ch))) tr)
      (setup_calls tx n) :=
  appends_foldl_issue hw _ _

theorem testedOk_nil : TestedOk [] := by
  intro e he
  simp at he

theorem testedOk_append {a b : List HwEvent} (ha : TestedOk a) (hb : TestedOk b) :
    TestedOk (a ++ b) := by
  intro e he
  rcases List.mem_append.mp he with h | h
  · exact ha e h
  · exact hb e h

theorem testedOk_single (c : HwCall) (st : Int) (h : st = 0) :
    TestedOk [{ call := c, status := st }] := by
  intro e he _
  simp at he
  rw [he]
  exact h

/-- Events none of whose calls is tested are trivially `TestedOk`. -/
theorem testedOk_of_calls {ev : List HwEvent} {cs : List HwCall}
    (h : ev.map HwEvent.call = cs) (hcs : ∀ c ∈ cs, c.isRateOrLO = false) : TestedOk ev := by
  intro e he hcrit
  have hmem : e.call ∈ cs := by
    rw [← h]
    exact List.mem_map_of_mem _ he
  rw [hcs _ hmem] at hcrit
  exact absurd hcrit (by decide)

/-- Successful events in front do not change where the run stops. -/
theorem stops_prepend {pre ev : List HwEvent} (hpre : TestedOk pre)
    (h : StopsAtFailure ev) : StopsAtFailure (pre ++ ev) := by
  obtain ⟨a, e, h1, h2, h3, h4⟩ := h
  exact ⟨pre ++ a, e, by rw [h1, List.append_assoc], h2, h3, testedOk_append hpre h4⟩

theorem stops_single (c : HwCall) (st : Int) (hc : c.isRateOrLO = true) (h : st ≠ 0) :
    StopsAtFailure [{ call := c, status := st }] :=
  ⟨[], { call := c, status := st }, rfl, hc, h, testedOk_nil⟩

theorem calibrate_calls_untested (fp : FloatOps) (p : TRXDriverParams) (rx tx : Nat) :
    ∀ c ∈ calibrate_calls fp p rx tx, c.isRateOrLO = false := by
  intro c hc
  simp only [calibrate_calls, List.mem_append, List.mem_flatMap, List.mem_range] at hc
  rcases hc with ⟨ch, _, h⟩ | ⟨ch, _, h⟩
  · simp at h
    rcases h with h | h | h <;> subst h <;> rfl
  · simp at h
    rcases h with h | h <;> subst h <;> rfl

theorem enable_gain_calls_untested (fp : FloatOps) (p : TRXDriverParams) (n : Nat) :
    ∀ c ∈ enable_gain_calls fp p n, c.isRateOrLO = false := by
  intro c hc
  simp only [enable_gain_calls, List.mem_flatMap, List.mem_range] at hc
  obtain ⟨ch, _, h⟩ := hc
  simp at h
  rcases h with h | h | h | h <;> subst h <;> rfl

theorem setup_calls_untested (tx : Bool) (n : Nat) :
    ∀ c ∈ setup_calls tx n, c.isRateOrLO = false := by
  intro c hc
  simp only [setup_calls, List.mem_map, List.mem_range] at hc
  obtain ⟨ch, _, h⟩ := hc
  subst h
  rfl

/-- A tested call followed by a continuation that runs a plan: the whole runs
the call followed by the plan. -/
theorem runs_tested (hw : Hw) (s : TRXLmsState) (tr : List HwEvent) (c : HwCall)
    (k : List HwEvent → Option StartResult) (plan : List HwCall) (hc : c.isRateOrLO = true)
    (hk : ∀ tr1, Runs (k tr1) tr1 plan) : Runs (tested hw s tr c k) tr (c :: plan) := by
  by_cases h : (hw tr c).status = 0
  · obtain ⟨r, hr, ev, h1, rest, h2, h3⟩ := hk (issue hw tr c)
    refine ⟨r, ?_, { call := c, status := (hw tr c).status } :: ev, ?_, rest, ?_, ?_⟩
    · simp only [tested, hw_call, h, ne_eq, not_true_eq_false, if_false]
      exact hr
    · rw [h1]
      simp [issue, h]
    · rw [h2]
      simp
    · have hok : TestedOk [{ call := c, status := (hw tr c).status }] :=
        testedOk_single c _ h
      rcases h3 with ⟨r0, hrest, hev, hm⟩ | ⟨r1, hstop, hm⟩
      · exact Or.inl ⟨r0, hrest, testedOk_append hok hev, hm⟩
      · exact Or.inr ⟨r1, stops_prepend hok hstop, hm⟩
  · refine ⟨{ ret := -1, state := s, trace := issue hw tr c, marker := false }, ?_,
      [{ call := c, status := (hw tr c).status }], rfl, plan, ?_,
      Or.inr ⟨rfl, stops_single c _ hc h, rfl⟩⟩
    · simp [tested, hw_call, h]
    · simp

/-- Untested calls followed by a continuation that runs a plan. -/
theorem runs_after_untested (f : List HwEvent → List HwEvent) (cs : List HwCall)
    (hf : Appends f cs) (hcs : ∀ c ∈ cs, c.isRateOrLO = false)
    (k : List HwEvent → Option StartResult) (plan : List HwCall)
    (hk : ∀ tr1, Runs (k tr1) tr1 plan) (tr : List HwEvent) :
    Runs (k (f tr)) tr (cs ++ plan) := by
  obtain ⟨e0, h0, hc0⟩ := hf tr
  obtain ⟨r, hr, ev, h1, rest, h2, h3⟩ := hk (f tr)
  have hok : TestedOk e0 := testedOk_of_calls hc0 hcs
  refine ⟨r, hr, e0 ++ ev, ?_, rest, ?_, ?_⟩
  · rw [h1, h0, List.append_assoc]
  · rw [h2, List.map_append, hc0, List.append_assoc]
  · rcases h3 with ⟨r0, hrest, hev, hm⟩ | ⟨r1, hstop, hm⟩
    · exact Or.inl ⟨r0, hrest, testedOk_append hok hev, hm⟩
    · exact Or.inr ⟨r1, stops_prepend hok hstop, hm⟩

/-- The tail of start after the LO blocks. -/
theorem runs_start_finish (fp : FloatOps) (hw : Hw) (s : TRXLmsState) (p : TRXDriverParams)
    (tr : List HwEvent) :
    Runs (start_finish fp hw s p tr) tr
      (if s.calibrate ≠ 0 then
         calibrate_calls fp p s.rx_channel_count.toNat s.tx_channel_count.toNat
       else []) := by
  obtain ⟨ev, h1, h2⟩ := appends_calibrate_all fp hw s p tr
  refine ⟨_, rfl, ev, h1, [], by simp [h2], Or.inl ⟨rfl, rfl, ?_, rfl⟩⟩
  apply testedOk_of_calls h2
  intro c hc
  by_cases hz : s.calibrate ≠ 0
  · rw [if_pos hz] at hc
    exact calibrate_calls_untested fp p _ _ c hc
  · rw [if_neg hz] at hc
    simp at hc

/-- The LO blocks and the tail of start run the LO calls and the calibration
calls. -/
theorem runs_set_lo_and_finish (fp : FloatOps) (hw : Hw) (s : TRXLmsState)
    (p : TRXDriverParams) (tr : List HwEvent)
    (hrx : s.rx_channel_count = p.rx_channel_count)
    (htx : s.tx_channel_count = p.tx_channel_count) :
    Runs (set_lo_and_finish fp hw s p tr) tr
      (lo_calls fp p ++
        (if s.calibrate ≠ 0 then
           calibrate_calls fp p p.rx_channel_count.toNat p.tx_channel_count.toNat
         else [])) := by
  have hfin := runs_start_finish fp hw s p
  rw [hrx, htx] at hfin
  have htx2 : ∀ tr1, Runs (set_lo_tx2 fp hw s p tr1) tr1
      ((if p.tx_channel_count > 2 then
          [HwCall.SetLOFrequency true 2 (fp.of_int (p.tx_freq 0))] else []) ++
        (if s.calibrate ≠ 0 then
           calibrate_calls fp p p.rx_channel_count.toNat p.tx_channel_count.toNat
         else [])) := by
    intro tr1
    by_cases h : p.tx_channel_count > 2
    · simp only [set_lo_tx2, htx, if_pos h, List.singleton_append]
      exact runs_tested hw s tr1 _ _ _ rfl hfin
    · simp only [set_lo_tx2, htx, if_neg h, List.nil_append]
      exact hfin tr1
  have hrx2 : ∀ tr1, Runs (set_lo_rx2 fp hw s p tr1) tr1
      ((if p.rx_channel_count > 2 then
          [HwCall.SetLOFrequency false 2 (fp.of_int (p.rx_freq 0))] else []) ++
        ((if p.tx_channel_count > 2 then
            [HwCall.SetLOFrequency true 2 (fp.of_int (p.tx_freq 0))] else []) ++
          (if s.calibrate ≠ 0 then
             calibrate_calls fp p p.rx_channel_count.toNat p.tx_channel_count.toNat
           else []))) := by
    intro tr1
    by_cases h : p.rx_channel_count > 2
    · simp only [set_lo_rx2, hrx, if_pos h, List.singleton_append]
      exact runs_tested hw s tr1 _ _ _ rfl htx2
    · simp only [set_lo_rx2, hrx, if_neg h, List.nil_append]
      exact htx2 tr1
  have h := runs_tested hw s tr (.SetLOFrequency false 0 (fp.of_int (p.rx_freq 0)))
    (fun tr => tested hw s tr (.SetLOFrequency true 0 (fp.of_int (p.tx_freq 0)))
      (set_lo_rx2 fp hw s p)) _ rfl
    (fun tr1 => runs_tested hw s tr1 _ _ _ rfl hrx2)
  simpa [set_lo_and_finish, lo_calls, List.append_assoc] using h

/-- Indices below a count of at most 4 are inside the stream arrays. -/
theorem range_in_array (n : Int) (h : n ≤ 4) : ∀ ch ∈ List.range n.toNat, ch < 4 := by
  intro ch hch
  rw [List.mem_range] at hch
  omega

/-- A count above 4 makes a loop reach index 4. -/
theorem range_overruns (n : Int) (h : 4 < n) : ∃ ch ∈ List.range n.toNat, 4 ≤ ch :=
  ⟨4, by rw [List.mem_range]; omega, le_refl 4⟩

/-- The stream setup loops and everything after them, for counts of at most 4. -/
theorem runs_setup_streams (fp : FloatOps) (hw : Hw) (s : TRXLmsState)
    (p : TRXDriverParams) (hrx : s.rx_channel_count = p.rx_channel_count)
    (htx : s.tx_channel_count = p.tx_channel_count)
    (hrx4 : p.rx_channel_count ≤ 4) (htx4 : p.tx_channel_count ≤ 4) (tr : List HwEvent) :
    Runs (setup_streams_and_finish fp hw s p tr) tr
      (setup_calls false p.rx_channel_count.toNat ++
        (setup_calls true p.tx_channel_count.toNat ++
          (lo_calls fp p ++
            (if s.calibrate ≠ 0 then
               calibrate_calls fp p p.rx_channel_count.toNat p.tx_channel_count.toNat
             else [])))) := by
  obtain ⟨st1, hst1⟩ := setup_rx_defined hw (List.range s.rx_channel_count.toNat) (s, tr)
    (range_in_array _ (by rw [hrx]; exact hrx4))
  have e1 := setup_rx_fold hw _ s tr st1 hst1
  have hs1tx : st1.1.tx_channel_count = s.tx_channel_count := by rw [e1.2]
  have hs1rx : st1.1.rx_channel_count = s.rx_channel_count := by rw [e1.2]
  have hs1c : st1.1.calibrate = s.calibrate := by rw [e1.2]
  obtain ⟨st2, hst2⟩ := setup_tx_defined hw (List.range st1.1.tx_channel_count.toNat) st1
    (range_in_array _ (by rw [hs1tx, htx]; exact htx4))
  have e2 := setup_tx_fold hw _ st1.1 st1.2 st2 hst2
  have hs2tx : st2.1.tx_channel_count = p.tx_channel_count := by rw [e2.2]; rw [hs1tx, htx]
  have hs2rx : st2.1.rx_channel_count = p.rx_channel_count := by rw [e2.2]; rw [hs1rx, hrx]
  have hs2c : st2.1.calibrate = s.calibrate := by rw [e2.2]; exact hs1c
  have hdef : setup_streams_and_finish fp hw s p tr = set_lo_and_finish fp hw st2.1 p st2.2 := by
    simp only [setup_streams_and_finish, hst1, hst2]
  have hlo : ∀ tr1, Runs (set_lo_and_finish fp hw st2.1 p tr1) tr1
      (lo_calls fp p ++
        (if s.calibrate ≠ 0 then
           calibrate_calls fp p p.rx_channel_count.toNat p.tx_channel_count.toNat
         else [])) := by
    intro tr1
    have h := runs_set_lo_and_finish fp hw st2.1 p tr1 hs2rx hs2tx
    rw [hs2c] at h
    exact h
  have htxs := runs_after_untested _ _ (appends_setup hw true p.tx_channel_count.toNat)
    (setup_calls_untested true _) _ _ hlo
  have hrxs := runs_after_untested _ _ (appends_setup hw false p.rx_channel_count.toNat)
    (setup_calls_untested false _) _ _ htxs tr
  rw [hdef, e2.1, e1.1, hs1tx, htx, hrx]
  exact hrxs

/-- The stream setup loops are undefined when a count exceeds 4. -/
theorem setup_streams_overrun (fp : FloatOps) (hw : Hw) (s : TRXLmsState)
    (p : TRXDriverParams) (tr : List HwEvent)
    (h : 4 < s.rx_channel_count ∨ 4 < s.tx_channel_count) :
    setup_streams_and_finish fp hw s p tr = none := by
  cases hst1 : (List.range s.rx_channel_count.toNat).foldlM (setup_rx_body hw) (s, tr) with
  | none => simp only [setup_streams_and_finish, hst1]
  | some st1 =>
    have e1 := setup_rx_fold hw _ s tr st1 hst1
    have hs1tx : st1.1.tx_channel_count = s.tx_channel_count := by rw [e1.2]
    rcases h with h | h
    · rw [setup_rx_overrun hw _ _ (range_overruns _ h)] at hst1
      cases hst1
    · have h2 := setup_tx_overrun hw (List.range st1.1.tx_channel_count.toNat) st1
        (range_overruns _ (by rw [hs1tx]; exact h))
      simp only [setup_streams_and_finish, hst1, h2]

/-- Start with one RF port and a non-zero denominator, unfolded. -/
theorem start_eq (fp : FloatOps) (hw : Hw) (s : TRXLmsState) (p : TRXDriverParams)
    (hport : p.rf_port_count = 1) (hden : (p.sample_rate 0).den ≠ 0) :
    trx_lms7002m_start fp hw s p =
      tested hw (start_state s p)
        (if s.ini_file = 0 then
           (List.range p.rx_channel_count.toNat).foldl (enable_gain_body fp hw p) []
         else [])
        (.SetSampleRate (start_state s p).sample_rate (start_state s p).dec_inter)
        (setup_streams_and_finish fp hw (start_state s p) p) := by
  simp only [trx_lms7002m_start, hport, hden, ne_eq, not_true_eq_false, if_false]
  rfl

/-- Start with one RF port and counts of at most 4 runs the plan `start_calls`. -/
theorem start_runs (fp : FloatOps) (hw : Hw) (s : TRXLmsState) (p : TRXDriverParams)
    (hport : p.rf_port_count = 1) (hden : (p.sample_rate 0).den ≠ 0)
    (hrx4 : p.rx_channel_count ≤ 4) (htx4 : p.tx_channel_count ≤ 4) :
    ∃ r, trx_lms7002m_start fp hw s p = some r ∧
      RunOutcome (start_calls fp s p) r.trace r.ret r.marker := by
  have hk : ∀ tr1, Runs (tested hw (start_state s p) tr1
      (.SetSampleRate (start_state s p).sample_rate (start_state s p).dec_inter)
      (setup_streams_and_finish fp hw (start_state s p) p)) tr1 _ := fun tr1 =>
    runs_tested hw _ tr1 _ _ _ rfl
      (runs_setup_streams fp hw (start_state s p) p rfl rfl hrx4 htx4)
  rw [start_eq fp hw s p hport hden]
  by_cases hini : s.ini_file = 0
  · have h := runs_after_untested _ _ (appends_enable_gain fp hw p p.rx_channel_count.toNat)
      (enable_gain_calls_untested fp p _) _ _ hk []
    obtain ⟨r, hr, ev, h1, h2⟩ := h
    simp only [List.nil_append] at h1
    refine ⟨r, by simp only [hini, if_true]; exact hr, ?_⟩
    rw [h1]
    simpa [start_calls, hini, start_state, List.append_assoc] using h2
  · obtain ⟨r, hr, ev, h1, h2⟩ := hk []
    simp only [List.nil_append] at h1
    refine ⟨r, by simp only [hini, if_false]; exact hr, ?_⟩
    rw [h1]
    simpa [start_calls, hini, start_state, List.append_assoc] using h2

/-- A tested call whose continuation is undefined returns only by failing. -/
theorem tested_none (hw : Hw) (s : TRXLmsState) (tr : List HwEvent) (c : HwCall)
    (k : List HwEvent → Option StartResult) (r : StartResult) (hk : ∀ tr1, k tr1 = none)
    (h : tested hw s tr c k = some r) : r.ret = -1 := by
  by_cases hst : (hw tr c).status = 0
  · simp [tested, hw_call, hst, hk] at h
  · simp only [tested, hw_call, ne_eq, hst, not_false_eq_true, if_true, Option.some.injEq] at h
    rw [← h]

/-- Start with one RF port and a count above 4 does not return 0: either the
rate call fails and the result is -1, or a setup loop overruns its array. -/
theorem start_overrun (fp : FloatOps) (hw : Hw) (s : TRXLmsState) (p : TRXDriverParams)
    (hport : p.rf_port_count = 1) (hden : (p.sample_rate 0).den ≠ 0)
    (h : 4 < p.rx_channel_count ∨ 4 < p.tx_channel_count) (r : StartResult)
    (hr : trx_lms7002m_start fp hw s p = some r) : r.ret = -1 := by
  rw [start_eq fp hw s p hport hden] at hr
  exact tested_none hw _ _ _ _ r
    (fun tr1 => setup_streams_overrun fp hw (start_state s p) p tr1 h) hr

/-- Splitting a list that ends in `e0` at an element: the element is `e0`
itself, or it lies in the part before `e0`. -/
theorem split_snoc {α : Type} (pre post tr : List α) (e e0 : α)
    (h : pre ++ e :: post = tr ++ [e0]) :
    (post = [] ∧ pre = tr ∧ e = e0) ∨ ∃ q, post = q ++ [e0] ∧ tr = pre ++ e :: q := by
  rcases List.eq_nil_or_concat post with hp | ⟨q, x, hp⟩
  · left
    subst hp
    have h2 : pre ++ [e] = tr ++ [e0] := h
    have h3 := List.append_inj' h2 rfl
    exact ⟨rfl, h3.1, by simpa using h3.2⟩
  · right
    subst hp
    have h2 : (pre ++ e :: q) ++ [x] = tr ++ [e0] := by
      rw [← h]
      simp
    have h3 := List.append_inj' h2 rfl
    have hx : x = e0 := by simpa using h3.2
    exact ⟨q, by rw [hx]; simp, h3.1.symm⟩

theorem consistent_nil (hw : Hw) : HwConsistent hw [] := by
  intro pre e post h
  simp at h

/-- Issuing a call records the reply of the hardware. -/
theorem keeps_issue (hw : Hw) (c : HwCall) : Keeps hw (fun tr => issue hw tr c) := by
  intro tr htr pre e post h
  rcases split_snoc pre post tr e _ h.symm with ⟨_, hpre, he⟩ | ⟨q, _, htr2⟩
  · rw [he, hpre]
  · exact htr pre e q htr2

theorem keeps_comp {hw : Hw} {f g : List HwEvent → List HwEvent}
    (hf : Keeps hw f) (hg : Keeps hw g) : Keeps hw (fun tr => g (f tr)) :=
  fun tr htr => hg (f tr) (hf tr htr)

theorem keeps_foldl {hw : Hw} (body : List HwEvent → Nat → List HwEvent)
    (hb : ∀ ch, Keeps hw (fun tr => body tr ch)) :
    ∀ l : List Nat, Keeps hw (fun tr => l.foldl body tr) := by
  intro l
  induction l with
  | nil => exact fun tr htr => htr
  | cons ch l ih => exact fun tr htr => ih (body tr ch) (hb ch tr htr)

theorem keeps_enable_gain (fp : FloatOps) (hw : Hw) (p : TRXDriverParams) (n : Nat) :
    Keeps hw (fun tr => (List.range n).foldl (enable_gain_body fp hw p) tr) :=
  keeps_foldl _ (fun _ => keeps_comp (keeps_comp (keeps_comp (keeps_issue hw _)
    (keeps_issue hw _)) (keeps_issue hw _)) (keeps_issue hw _)) _

theorem keeps_calibrate_all (fp : FloatOps) (hw : Hw) (s : TRXLmsState)
    (p : TRXDriverParams) : Keeps hw (calibrate_all fp hw s p) := by
  intro tr htr
  by_cases hc : s.calibrate ≠ 0
  · simp only [calibrate_all, if_pos hc]
    exact keeps_comp
      (keeps_foldl (calibrate_tx_body fp hw p) (fun _ => keeps_comp
        (keeps_comp (keeps_issue hw _) (keeps_issue hw _)) (keeps_issue hw _)) _)
      (keeps_foldl (calibrate_rx_body fp hw p) (fun _ => keeps_comp
        (keeps_issue hw _) (keeps_issue hw _)) _) tr htr
  · simp only [calibrate_all, if_neg hc]
    exact htr

theorem keepsRun_tested (hw : Hw) (s : TRXLmsState) (c : HwCall)
    (k : List HwEvent → Option StartResult) (hk : KeepsRun hw k) :
    KeepsRun hw (fun tr => tested hw s tr c k) := by
  intro tr r h htr
  have hi : HwConsistent hw (issue hw tr c) := keeps_issue hw c tr htr
  by_cases hst : (hw tr c).status = 0
  · simp only [tested, hw_call, hst, ne_eq, not_true_eq_false, if_false] at h
    exact hk _ r h hi
  · simp only [tested, hw_call, ne_eq, hst, not_false_eq_true, if_true,
      Option.some.injEq] at h
    rw [← h]
    exact hi

theorem keepsRun_start_finish (fp : FloatOps) (hw : Hw) (s : TRXLmsState)
    (p : TRXDriverParams) : KeepsRun hw (start_finish fp hw s p) := by
  intro tr r h htr
  simp only [start_finish, Option.some.injEq] at h
  rw [← h]
  exact keeps_calibrate_all fp hw s p tr htr

theorem keepsRun_set_lo_and_finish (fp : FloatOps) (hw : Hw) (s : TRXLmsState)
    (p : TRXDriverParams) : KeepsRun hw (set_lo_and_finish fp hw s p) := by
  have h4 : KeepsRun hw (set_lo_tx2 fp hw s p) := by
    intro tr r h htr
    by_cases hc : s.tx_channel_count > 2
    · simp only [set_lo_tx2, if_pos hc] at h
      exact keepsRun_tested hw s _ _ (keepsRun_start_finish fp hw s p) tr r h htr
    · simp only [set_lo_tx2, if_neg hc] at h
      exact keepsRun_start_finish fp hw s p tr r h htr
  have h3 : KeepsRun hw (set_lo_rx2 fp hw s p) := by
    intro tr r h htr
    by_cases hc : s.rx_channel_count > 2
    · simp only [set_lo_rx2, if_pos hc] at h
      exact keepsRun_tested hw s _ _ h4 tr r h htr
    · simp only [set_lo_rx2, if_neg hc] at h
      exact h4 tr r h htr
  exact keepsRun_tested hw s _ _ (keepsRun_tested hw s _ _ h3)

theorem keepsRun_setup_streams (fp : FloatOps) (hw : Hw) (s : TRXLmsState)
    (p : TRXDriverParams) : KeepsRun hw (setup_streams_and_finish fp hw s p) := by
  intro tr r h htr
  cases hst1 : (List.range s.rx_channel_count.toNat).foldlM (setup_rx_body hw) (s, tr) with
  | none => simp [setup_streams_and_finish, hst1] at h
  | some st1 =>
    cases hst2 : (List.range st1.1.tx_channel_count.toNat).foldlM (setup_tx_body hw) st1 with
    | none => simp [setup_streams_and_finish, hst1, hst2] at h
    | some st2 =>
      simp only [setup_streams_and_finish, hst1, hst2] at h
      have e1 := (setup_rx_fold hw _ s tr st1 hst1).1
      have e2 := (setup_tx_fold hw _ st1.1 st1.2 st2 hst2).1
      have c1 : HwConsistent hw st1.2 := by
        rw [e1]
        exact keeps_foldl _ (fun _ => keeps_issue hw _) _ tr htr
      have c2 : HwConsistent hw st2.2 := by
        rw [e2]
        exact keeps_foldl _ (fun _ => keeps_issue hw _) _ _ c1
      exact keepsRun_set_lo_and_finish fp hw st2.1 p st2.2 r h c2

/-- Every status in the trace of a start run is the reply of the hardware. -/
theorem start_consistent (fp : FloatOps) (hw : Hw) (s : TRXLmsState) (p : TRXDriverParams)
    (r : StartResult) (h : trx_lms7002m_start fp hw s p = some r) :
    HwConsistent hw r.trace := by
  by_cases hport : p.rf_port_count = 1
  · by_cases hden : (p.sample_rate 0).den = 0
    · simp [trx_lms7002m_start, hport, hden] at h
    · rw [start_eq fp hw s p hport hden] at h
      refine keepsRun_tested hw _ _ _ (keepsRun_setup_streams fp hw _ p) _ r h ?_
      by_cases hini : s.ini_file = 0
      · simp only [hini, if_true]
        exact keeps_enable_gain fp hw p _ [] (consistent_nil hw)
      · simp only [hini, if_false]
        exact consistent_nil hw
  · simp only [trx_lms7002m_start, ne_eq, hport, not_false_eq_true, if_true,
      Option.some.injEq] at h
    rw [← h]
    exact consistent_nil hw

theorem filter_none {q : HwCall → Bool} {l : List HwCall} (h : ∀ c ∈ l, q c = false) :
    l.filter q = [] := by
  apply List.filter_eq_nil_iff.mpr
  intro c hc
  rw [h c hc]
  decide

theorem filter_all {q : HwCall → Bool} {l : List HwCall} (h : ∀ c ∈ l, q c = true) :
    l.filter q = l :=
  List.filter_eq_self.mpr h

theorem not_lo_of_untested {c : HwCall} (h : c.isRateOrLO = false) :
    c.isSetLOFrequency = false := by
  simp only [HwCall.isRateOrLO, Bool.or_eq_false_iff] at h
  exact h.2

theorem enable_gain_calls_not_setup (fp : FloatOps) (p : TRXDriverParams) (n : Nat) :
    ∀ c ∈ enable_gain_calls fp p n, c.isSetupStream = false := by
  intro c hc
  simp only [enable_gain_calls, List.mem_flatMap, List.mem_range] at hc
  obtain ⟨ch, _, h⟩ := hc
  simp at h
  rcases h with h | h | h | h <;> subst h <;> rfl

theorem calibrate_calls_not_setup (fp : FloatOps) (p : TRXDriverParams) (rx tx : Nat) :
    ∀ c ∈ calibrate_calls fp p rx tx, c.isSetupStream = false := by
  intro c hc
  simp only [calibrate_calls, List.mem_append, List.mem_flatMap, List.mem_range] at hc
  rcases hc with ⟨ch, _, h⟩ | ⟨ch, _, h⟩
  · simp at h
    rcases h with h | h | h <;> subst h <;> rfl
  · simp at h
    rcases h with h | h <;> subst h <;> rfl

theorem setup_calls_all_setup (tx : Bool) (n : Nat) :
    ∀ c ∈ setup_calls tx n, c.isSetupStream = true := by
  intro c hc
  simp only [setup_calls, List.mem_map, List.mem_range] at hc
  obtain ⟨ch, _, h⟩ := hc
  subst h
  rfl

theorem lo_calls_kind (fp : FloatOps) (p : TRXDriverParams) :
    ∀ c ∈ lo_calls fp p, c.isSetLOFrequency = true ∧ c.isSetupStream = false := by
  intro c hc
  simp only [lo_calls, List.mem_append, List.mem_cons, List.mem_singleton] at hc
  rcases hc with ((h | h | h) | h) | h
  · subst h; exact ⟨rfl, rfl⟩
  · subst h; exact ⟨rfl, rfl⟩
  · simp at h
  · by_cases hz : p.rx_channel_count > 2
    · rw [if_pos hz] at h
      simp at h
      subst h; exact ⟨rfl, rfl⟩
    · rw [if_neg hz] at h
      simp at h
  · by_cases hz : p.tx_channel_count > 2
    · rw [if_pos hz] at h
      simp at h
      subst h; exact ⟨rfl, rfl⟩
    · rw [if_neg hz] at h
      simp at h

/-- The `LMS_SetupStream` calls of the plan. -/
theorem start_calls_setup (fp : FloatOps) (s : TRXLmsState) (p : TRXDriverParams) :
    (start_calls fp s p).filter HwCall.isSetupStream =
      setup_calls false p.rx_channel_count.toNat ++ setup_calls true p.tx_channel_count.toNat := by
  have h1 : (if s.ini_file = 0 then enable_gain_calls fp p p.rx_channel_count.toNat
      else []).filter HwCall.isSetupStream = [] := by
    by_cases hz : s.ini_file = 0
    · rw [if_pos hz]
      exact filter_none (enable_gain_calls_not_setup fp p _)
    · rw [if_neg hz]
      rfl
  have h2 : (if s.calibrate ≠ 0 then
      calibrate_calls fp p p.rx_channel_count.toNat p.tx_channel_count.toNat
      else []).filter HwCall.isSetupStream = [] := by
    by_cases hz : s.calibrate ≠ 0
    · rw [if_pos hz]
      exact filter_none (calibrate_calls_not_setup fp p _ _)
    · rw [if_neg hz]
      rfl
  have h3 : (lo_calls fp p).filter HwCall.isSetupStream = [] :=
    filter_none (fun c hc => (lo_calls_kind fp p c hc).2)
  simp only [start_calls, List.filter_append, h1, h2, h3,
    filter_all (setup_calls_all_setup false _), filter_all (setup_calls_all_setup true _)]
  simp [HwCall.isSetupStream]

/-- The `LMS_SetLOFrequency` calls of the plan. -/
theorem start_calls_lo (fp : FloatOps) (s : TRXLmsState) (p : TRXDriverParams) :
    (start_calls fp s p).filter HwCall.isSetLOFrequency = lo_calls fp p := by
  have h1 : (if s.ini_file = 0 then enable_gain_calls fp p p.rx_channel_count.toNat
      else []).filter HwCall.isSetLOFrequency = [] := by
    by_cases hz : s.ini_file = 0
    · rw [if_pos hz]
      exact filter_none
        (fun c hc => not_lo_of_untested (enable_gain_calls_untested fp p _ c hc))
    · rw [if_neg hz]
      rfl
  have h2 : (if s.calibrate ≠ 0 then
      calibrate_calls fp p p.rx_channel_count.toNat p.tx_channel_count.toNat
      else []).filter HwCall.isSetLOFrequency = [] := by
    by_cases hz : s.calibrate ≠ 0
    · rw [if_pos hz]
      exact filter_none
        (fun c hc => not_lo_of_untested (calibrate_calls_untested fp p _ _ c hc))
    · rw [if_neg hz]
      rfl
  have h3 : ∀ (tx : Bool) (n : Nat),
      (setup_calls tx n).filter HwCall.isSetLOFrequency = [] := fun tx n =>
    filter_none (fun c hc => not_lo_of_untested (setup_calls_untested tx n c hc))
  simp only [start_calls, List.filter_append, h1, h2, h3,
    filter_all (fun c hc => (lo_calls_kind fp p c hc).1)]
  simp [HwCall.isSetLOFrequency]

/-- An element of a list that ends in `e1` is its last element or lies before
`e1`. -/
theorem last_of_append_cons {α : Type} (pre post pre1 : List α) (e e1 : α)
    (h : pre ++ e :: post = pre1 ++ [e1]) : post = [] ∨ e ∈ pre1 := by
  rcases List.eq_nil_or_concat post with hp | ⟨q, x, hp⟩
  · exact Or.inl hp
  · right
    subst hp
    have h2 : (pre ++ e :: q) ++ [x] = pre1 ++ [e1] := by
      rw [← h]
      simp
    have h3 := List.append_inj_left' h2 rfl
    rw [← h3]
    simp

/-- A run that stopped at a failure has a failed tested call. -/
theorem stops_not_ok {ev : List HwEvent} (h : StopsAtFailure ev) : ¬ TestedOk ev := by
  obtain ⟨pre, e, h1, h2, h3, _⟩ := h
  intro hok
  exact h3 (hok e (by rw [h1]; simp) h2)

/-- Start with a port count other than 1. -/
theorem start_rejects_port_count_aux (fp : FloatOps) (hw : Hw) (s : TRXLmsState)
    (p : TRXDriverParams) (h : p.rf_port_count ≠ 1) :
    ∃ r, trx_lms7002m_start fp hw s p = some r ∧
      r.ret = -1 ∧ r.trace = [] ∧ r.state = s ∧ r.marker = false := by
  refine ⟨{ ret := -1, state := s, trace := [], marker := false }, ?_, rfl, rfl, rfl, rfl⟩
  simp only [trx_lms7002m_start, if_pos h]

/-! ## Helper lemmas: read and write -/

theorem recv_fold_trace (hw : Hw) (a : ReadArgs) :
    ∀ (l : List Nat) (st : Int × lms_stream_meta_t × List HwEvent),
      ∃ ev, (l.foldl (recv_body hw a) st).2.2 = st.2.2 ++ ev ∧
        ∀ c ∈ ev.map HwEvent.call, c.isStartStream = false := by
  intro l
  induction l with
  | nil =>
    intro st
    exact ⟨[], by simp, by simp⟩
  | cons ch l ih =>
    intro st
    obtain ⟨ev, h1, h2⟩ := ih (recv_body hw a st ch)
    refine ⟨{ call := .RecvStream ch (a.psamples ch) a.count st.2.1 30,
              status := (hw st.2.2 (.RecvStream ch (a.psamples ch) a.count st.2.1 30)).status }
            :: ev, ?_, ?_⟩
    · rw [List.foldl_cons, h1]
      simp only [recv_body, List.append_assoc, List.singleton_append]
    · intro c hc
      simp only [List.map_cons, List.mem_cons] at hc
      rcases hc with hc | hc
      · rw [hc]
        rfl
      · exact h2 c hc

/-- The calls of the two start loops of read. -/
theorem appends_start_streams (hw : Hw) (rx tx : Nat) :
    Appends (fun tr =>
        (List.range tx).foldl (fun tr ch => issue hw tr (.StartStream true ch))
          ((List.range rx).foldl (fun tr ch => issue hw tr (.StartStream false ch)) tr))
      (start_stream_calls rx tx) :=
  appends_comp (appends_foldl_issue hw _ _) (appends_foldl_issue hw _ _)

/-- A read on a context that is not started. -/
theorem read_first (hw : Hw) (s : TRXLmsState) (a : ReadArgs) (h : s.started = 0) :
    (trx_lms7002m_read hw s a).state = { s with started := 1 } ∧
    ∃ recv, (trx_lms7002m_read hw s a).trace.map HwEvent.call =
        start_stream_calls s.rx_channel_count.toNat s.tx_channel_count.toNat ++ recv ∧
      ∀ c ∈ recv, c.isStartStream = false := by
  obtain ⟨ev0, h0, hc0⟩ :=
    appends_start_streams hw s.rx_channel_count.toNat s.tx_channel_count.toNat []
  simp only [List.nil_append] at h0
  have hst : start_streams hw s = ({ s with started := 1 }, ev0) := by
    simp only [start_streams, h, if_true]
    rw [h0]
  constructor
  · simp only [trx_lms7002m_read, hst]
  · obtain ⟨ev, h1, h2⟩ := recv_fold_trace hw a (List.range s.rx_channel_count.toNat)
      (a.ret0, { waitForTimestamp := false, flushPartialPacket := false,
                 timestamp := a.timestamp0 }, ev0)
    refine ⟨ev.map HwEvent.call, ?_, h2⟩
    simp only [trx_lms7002m_read, hst]
    rw [h1, List.map_append, hc0]

/-- A read on a started context. -/
theorem read_later (hw : Hw) (s : TRXLmsState) (a : ReadArgs) (h : s.started ≠ 0) :
    (trx_lms7002m_read hw s a).state = s ∧
    ∀ c ∈ (trx_lms7002m_read hw s a).trace.map HwEvent.call, c.isStartStream = false := by
  have hst : start_streams hw s = (s, []) := by
    simp only [start_streams, h, if_false]
  constructor
  · simp only [trx_lms7002m_read, hst]
  · obtain ⟨ev, h1, h2⟩ := recv_fold_trace hw a (List.range s.rx_channel_count.toNat)
      (a.ret0, { waitForTimestamp := false, flushPartialPacket := false,
                 timestamp := a.timestamp0 }, [])
    simp only [trx_lms7002m_read, hst]
    rw [h1]
    simpa using h2

/-- Reads on a started context. -/
theorem read_seq_later (rest : List ReadArgs) :
    ∀ (hw : Hw) (s : TRXLmsState), s.started = 1 →
      ∀ r ∈ read_seq hw s rest,
        (∀ c ∈ r.trace.map HwEvent.call, c.isStartStream = false) ∧ r.state.started = 1 := by
  induction rest with
  | nil =>
    intro hw s _ r hr
    simp [read_seq] at hr
  | cons a rest ih =>
    intro hw s hs r hr
    have hne : s.started ≠ 0 := by rw [hs]; decide
    obtain ⟨hstate, hcalls⟩ := read_later hw s a hne
    simp only [read_seq, List.mem_cons] at hr
    rcases hr with hr | hr
    · rw [hr]
      exact ⟨hcalls, by rw [hstate]; exact hs⟩
    · exact ih _ _ (by rw [hstate]; exact hs) r hr

/-! ## Sample-rate negotiation: claims -/

/-- C2: with a configured rate `c > 0` that is a multiple of 1000 and a
minimum `m ≤ c`, the function returns 0 with denominator 1, rate index 0 and a
numerator `r` that is `c` halved `k` times, a multiple of 1000, with
`m ≤ r ≤ c`, and last in the chain: `r >> 1` is below `m` or not a multiple of
1000.  The loop finishes within 32 tests for every 32-bit `c`. -/
theorem get_sample_rate_configured (fuel : Nat) (s : TRXLmsState) (out : RateOut) (m : Int)
    (hfuel : 32 ≤ fuel) (hpos : 0 < s.sample_rate) (hrange : s.sample_rate < 2 ^ 31)
    (hk : (1000 : Int) ∣ s.sample_rate) (hm : m ≤ s.sample_rate) :
    ∃ (r : Int) (k : Nat),
      trx_lms7002m_get_sample_rate fuel s out m =
        some (0, { psample_rate := { num := r, den := 1 }, psample_rate_num := 0 }) ∧
      r = s.sample_rate >>> k ∧ (1000 : Int) ∣ r ∧ m ≤ r ∧ r ≤ s.sample_rate ∧
      (r >>> (1 : Nat) < m ∨ ¬ (1000 : Int) ∣ r >>> (1 : Nat)) := by
  have hlt : s.sample_rate < 2 ^ 32 := by
    have : (2 : Int) ^ 31 < 2 ^ 32 := by norm_num
    omega
  obtain ⟨r, hr, hin, _⟩ := halve_loop_spec 32 s.sample_rate m out.psample_rate.num hpos hlt
  have hcond : s.sample_rate ≥ m ∧ Int.tmod s.sample_rate 1000 = 0 :=
    ⟨hm, Int.tmod_eq_zero_of_dvd hk⟩
  obtain ⟨⟨k, hk'⟩, h1000, hmr, hle, hlast⟩ := hin hcond
  have hr' : halve_loop fuel s.sample_rate m out.psample_rate.num = some r := by
    have := halve_loop_mono 32 (fuel - 32) s.sample_rate m out.psample_rate.num r hr
    have e : 32 + (fuel - 32) = fuel := by omega
    rwa [e] at this
  refine ⟨r, k, ?_, hk', Int.dvd_of_tmod_eq_zero h1000, hmr, hle, ?_⟩
  · have hne : s.sample_rate ≠ 0 := by omega
    simp [trx_lms7002m_get_sample_rate, hne, hr']
  · by_cases hlow : r >>> (1 : Nat) < m
    · exact Or.inl hlow
    · right
      intro hd
      exact hlast ⟨by omega, Int.tmod_eq_zero_of_dvd hd⟩

/-- Witness for C2: 30.72 MHz configured, 1.92 MHz required. -/
theorem get_sample_rate_configured_witness :
    32 ≤ 32 ∧ (0 : Int) < 30720000 ∧ (30720000 : Int) < 2 ^ 31 ∧
    (1000 : Int) ∣ 30720000 ∧ (1920000 : Int) ≤ 30720000 ∧
    ∃ (r : Int) (k : Nat),
      trx_lms7002m_get_sample_rate 32 { init_state with sample_rate := 30720000 }
          ⟨⟨0, 0⟩, 0⟩ 1920000 =
        some (0, { psample_rate := { num := r, den := 1 }, psample_rate_num := 0 }) ∧
      r = (30720000 : Int) >>> k ∧ (1000 : Int) ∣ r ∧ (1920000 : Int) ≤ r ∧
      r ≤ (30720000 : Int) ∧
      (r >>> (1 : Nat) < (1920000 : Int) ∨ ¬ (1000 : Int) ∣ r >>> (1 : Nat)) :=
  ⟨by decide, by decide, by decide, by decide, by decide,
    get_sample_rate_configured 32 { init_state with sample_rate := 30720000 } ⟨⟨0, 0⟩, 0⟩
      1920000 (by decide) (by decide) (by decide) (by decide) (by decide)⟩

/-- C3 (evaluation at the failing input): with 30.72 MHz configured and 40 MHz
required, the function returns 0 with denominator 1 and rate index 0, and the
numerator is the value the output held before the call (here 7), not the
configured rate. -/
theorem get_sample_rate_undershoot_stale :
    trx_lms7002m_get_sample_rate 32 { init_state with sample_rate := 30720000 }
        { psample_rate := { num := 7, den := 9 }, psample_rate_num := 5 } 40000000 =
      some (0, { psample_rate := { num := 7, den := 1 }, psample_rate_num := 0 }) := by
  decide

/-! ## Packet size: claims -/

/-- C4: for every TX channel count in {1,2,3,4} the function returns
`1020 / tx_channel_count` by integer division, the division is even
(`result * tx_channel_count = 1020`), and 4 channels give 255. -/
theorem tx_samples_per_packet (s : TRXLmsState)
    (h : s.tx_channel_count = 1 ∨ s.tx_channel_count = 2 ∨ s.tx_channel_count = 3 ∨
      s.tx_channel_count = 4) :
    ∃ r, trx_lms7002m_get_tx_samples_per_packet_func s = some r ∧
      r = SAMPLES_PER_PACKET / s.tx_channel_count ∧ r * s.tx_channel_count = 1020 ∧
      (s.tx_channel_count = 4 → r = 255) := by
  rcases h with h | h | h | h <;>
    simp [trx_lms7002m_get_tx_samples_per_packet_func, SAMPLES_PER_PACKET, h] <;> decide

/-- Witness for C4: four TX channels. -/
theorem tx_samples_per_packet_witness :
    ∃ r, trx_lms7002m_get_tx_samples_per_packet_func
        { init_state with tx_channel_count := 4 } = some r ∧
      r = SAMPLES_PER_PACKET / 4 ∧ r * 4 = 1020 ∧ (((4 : Int) = 4) → r = 255) :=
  tx_samples_per_packet { init_state with tx_channel_count := 4 }
    (Or.inr (Or.inr (Or.inr rfl)))

/-! ## Start, read and write: claims -/

/-- C5: for every start request whose `rf_port_count` is not 1, the function
returns -1, issues no hardware call, does not touch the marker file and leaves
the whole driver context as it was. -/
theorem start_rejects_port_count (fp : FloatOps) (hw : Hw) (s : TRXLmsState)
    (p : TRXDriverParams) (h : p.rf_port_count ≠ 1) :
    ∃ r, trx_lms7002m_start fp hw s p = some r ∧
      r.ret = -1 ∧ r.trace = [] ∧ r.state = s ∧ r.marker = false := by
  exact start_rejects_port_count_aux fp hw s p h

/-- Witness for C5: a request for two RF ports. -/
theorem start_rejects_port_count_witness :
    (2 : Int) ≠ 1 ∧
    ∃ r, trx_lms7002m_start fp_id hw_ok init_state
        { request 2 2 with rf_port_count := 2 } = some r ∧
      r.ret = -1 ∧ r.trace = [] ∧ r.state = init_state ∧ r.marker = false :=
  ⟨by decide,
    start_rejects_port_count fp_id hw_ok init_state { request 2 2 with rf_port_count := 2 }
      (by decide)⟩

/-- C6: on a context with `started = 0`, in every sequence of one or more
read calls the start sequence runs in the first call only: the first call
issues one `LMS_StartStream` per RX index `0..rx_channel_count-1`, then one per
TX index `0..tx_channel_count-1`, before anything else, and sets `started = 1`;
every later call issues no `LMS_StartStream` and leaves `started = 1`. -/
theorem read_seq_starts_once (hw : Hw) (s : TRXLmsState) (a : ReadArgs)
    (rest : List ReadArgs) (h : s.started = 0) :
    ∃ r rs, read_seq hw s (a :: rest) = r :: rs ∧
      (∃ recv, r.trace.map HwEvent.call =
          start_stream_calls s.rx_channel_count.toNat s.tx_channel_count.toNat ++ recv ∧
        ∀ c ∈ recv, c.isStartStream = false) ∧
      r.state.started = 1 ∧
      ∀ r1 ∈ rs, (∀ c ∈ r1.trace.map HwEvent.call, c.isStartStream = false) ∧
        r1.state.started = 1 := by
  obtain ⟨hstate, hcalls⟩ := read_first hw s a h
  have hs1 : (trx_lms7002m_read hw s a).state.started = 1 := by rw [hstate]
  exact ⟨trx_lms7002m_read hw s a, _, rfl, hcalls, hs1, read_seq_later rest _ _ hs1⟩

/-- Witness for C6: three reads on a fresh context with two RX and two TX
channels. -/
theorem read_seq_starts_once_witness :
    ({ init_state with rx_channel_count := 2, tx_channel_count := 2 } : TRXLmsState).started
      = 0 ∧
    ∃ r rs, read_seq hw_ok { init_state with rx_channel_count := 2, tx_channel_count := 2 }
        (⟨fun _ => 0, 1020, 0, 0, 0⟩ ::
          [⟨fun _ => 0, 1020, 0, 0, 0⟩, ⟨fun _ => 0, 1020, 0, 0, 0⟩]) = r :: rs ∧
      (∃ recv, r.trace.map HwEvent.call =
          start_stream_calls
            ({ init_state with rx_channel_count := 2, tx_channel_count := 2 } :
              TRXLmsState).rx_channel_count.toNat
            ({ init_state with rx_channel_count := 2, tx_channel_count := 2 } :
              TRXLmsState).tx_channel_count.toNat ++ recv ∧
        ∀ c ∈ recv, c.isStartStream = false) ∧
      r.state.started = 1 ∧
      ∀ r1 ∈ rs, (∀ c ∈ r1.trace.map HwEvent.call, c.isStartStream = false) ∧
        r1.state.started = 1 :=
  ⟨rfl, read_seq_starts_once hw_ok _ _ _ rfl⟩

/-- C7 (as stated, fails): on a context with one RX channel and no TX channel
a write with a non-null sample-buffer argument issues no hardware submission,
so "submissions are issued if and only if the argument is non-null" does not
hold. -/
theorem write_nonnull_without_submission :
    ¬ ((trx_lms7002m_write hw_ok { init_state with rx_channel_count := 1, started := 1 }
          100 (some fun _ => 0) 1020 0 0).2 ≠ [] ↔
        (some fun _ => 0 : Option (Nat → Nat)).isSome = true) := by
  decide

/-- C7 (amended): with a null argument the write issues no call and leaves the
context unchanged; with a non-null argument it issues exactly one
`LMS_SendStream` per TX index `0..tx_channel_count-1`, ascending, each with the
caller's count and timestamp, `waitForTimestamp = true`,
`flushPartialPacket = false` and timeout 30, and nothing else, and leaves the
context unchanged; so calls are issued exactly when the argument is non-null
and `tx_channel_count ≥ 1`. -/
theorem write_submissions (hw : Hw) (s : TRXLmsState) (timestamp : Nat) (count flags port : Int) :
    trx_lms7002m_write hw s timestamp none count flags port = (s, []) ∧
    ∀ bufs : Nat → Nat,
      (trx_lms7002m_write hw s timestamp (some bufs) count flags port).1 = s ∧
      (trx_lms7002m_write hw s timestamp (some bufs) count flags port).2.map HwEvent.call =
        send_calls timestamp bufs count s.tx_channel_count.toNat ∧
      ((trx_lms7002m_write hw s timestamp (some bufs) count flags port).2 ≠ [] ↔
        1 ≤ s.tx_channel_count) := by
  refine ⟨rfl, fun bufs => ?_⟩
  obtain ⟨ev, h1, h2⟩ := appends_foldl_issue hw
    (fun ch => HwCall.SendStream ch (bufs ch) count
      { timestamp := timestamp, waitForTimestamp := true, flushPartialPacket := false } 30)
    (List.range s.tx_channel_count.toNat) []
  simp only [List.nil_append] at h1
  have htr : (trx_lms7002m_write hw s timestamp (some bufs) count flags port).2 = ev := h1
  refine ⟨rfl, ?_, ?_⟩
  · rw [htr, h2]
    rfl
  · rw [htr]
    have hlen : ev.length = s.tx_channel_count.toNat := by
      have := congrArg List.length h2
      simpa using this
    constructor
    · intro hne
      have : ev.length ≠ 0 := fun h0 => hne (List.length_eq_zero.mp h0)
      omega
    · intro hge hnil
      rw [hnil] at hlen
      simp at hlen
      omega

/-- C8 (as stated, fails): on a hardware where stream creation fails and every
other call succeeds, a start request for one RX and one TX channel returns 0
although both `LMS_SetupStream` calls it issued returned the failure status
-1. -/
theorem start_ok_despite_setup_failure :
    ∃ r, trx_lms7002m_start fp_id hw_setup_fails init_state (request 1 1) = some r ∧
      r.ret = 0 ∧
      (r.trace.filter fun e => e.call.isSetupStream).map HwEvent.status = [-1, -1] :=
  ⟨_, rfl, rfl, by decide⟩

/-- C8 (amended): whenever the start function returns 0, the
`LMS_SetupStream` calls it issued are exactly one for every RX index
`0..rx_channel_count-1` followed by one for every TX index
`0..tx_channel_count-1`, each for the record the driver stored for that
stream (32-bit float samples, FIFO size 131072). -/
theorem start_success_setup_calls (fp : FloatOps) (hw : Hw) (s : TRXLmsState)
    (p : TRXDriverParams) (r : StartResult)
    (h : trx_lms7002m_start fp hw s p = some r) (h0 : r.ret = 0) :
    (r.trace.map HwEvent.call).filter HwCall.isSetupStream =
      setup_calls false p.rx_channel_count.toNat ++
        setup_calls true p.tx_channel_count.toNat := by
  have hport : p.rf_port_count = 1 := by
    by_contra hne
    obtain ⟨r1, hr1, hret, _⟩ := start_rejects_port_count_aux fp hw s p hne
    rw [h] at hr1
    have : r = r1 := Option.some.inj hr1
    rw [this, hret] at h0
    exact absurd h0 (by decide)
  have hden : (p.sample_rate 0).den ≠ 0 := by
    intro hz
    simp [trx_lms7002m_start, hport, hz] at h
  have hbound : p.rx_channel_count ≤ 4 ∧ p.tx_channel_count ≤ 4 := by
    by_contra hb
    have hover : 4 < p.rx_channel_count ∨ 4 < p.tx_channel_count := by omega
    have hret := start_overrun fp hw s p hport hden hover r h
    rw [hret] at h0
    exact absurd h0 (by decide)
  obtain ⟨r1, hr1, rest, hplan, hout⟩ := start_runs fp hw s p hport hden hbound.1 hbound.2
  rw [h] at hr1
  have hr : r = r1 := Option.some.inj hr1
  subst hr
  rcases hout with ⟨_, hrest, _, _⟩ | ⟨hret, _, _⟩
  · rw [hrest, List.append_nil] at hplan
    rw [← hplan]
    exact start_calls_setup fp s p
  · rw [hret] at h0
    exact absurd h0 (by decide)

/-- Witness for C8 (amended): two RX and two TX channels on a hardware where
every call succeeds. -/
theorem start_success_setup_calls_witness :
    ∃ r, trx_lms7002m_start fp_id hw_ok init_state (request 2 2) = some r ∧ r.ret = 0 ∧
      (r.trace.map HwEvent.call).filter HwCall.isSetupStream =
        setup_calls false (request 2 2).rx_channel_count.toNat ++
          setup_calls true (request 2 2).tx_channel_count.toNat :=
  ⟨_, rfl, rfl, start_success_setup_calls fp_id hw_ok init_state (request 2 2) _ rfl rfl⟩

/-- C9 (as stated, fails): the claim is made for every start request with
`rf_port_count = 1`, but on a hardware where every call succeeds the run is
undefined, so that 0 is not returned and the LO calls are not issued, for a
request whose rate denominator is 0 (division at source line 164), for a
request with five RX channels and for a request with five TX channels (the
setup loops store outside the four-entry stream arrays, after the rate call
has succeeded). -/
theorem start_undefined_outside_domain :
    trx_lms7002m_start fp_id hw_ok init_state
      { request 1 1 with sample_rate := fun _ => { num := 30720000, den := 0 } } = none ∧
    trx_lms7002m_start fp_id hw_ok init_state (request 5 1) = none ∧
    trx_lms7002m_start fp_id hw_ok init_state (request 1 5) = none :=
  ⟨rfl, rfl, rfl⟩

/-- C9 (amended): for every hardware and every start request with
`rf_port_count = 1`, a non-zero rate denominator and RX and TX channel counts
of at most 4, the function returns, with 0 or -1.  Every status in its trace is
the reply of the hardware to that call.  The calls it issues are an initial
part of the planned sequence `start_calls`, whose LO calls are RX group 0, TX
group 0, RX group 2 exactly when `rx_channel_count > 2`, TX group 2 exactly
when `tx_channel_count > 2`.  It returns -1 exactly when the hardware failed
the rate call or an LO call it issued, and then that call is the last one
issued; it returns 0 exactly when the rate call and every issued LO call
succeeded, whatever the calibration and filter calls returned, and then the
whole plan was issued. -/
theorem start_fatal_calls (fp : FloatOps) (hw : Hw) (s : TRXLmsState) (p : TRXDriverParams)
    (hport : p.rf_port_count = 1) (hden : (p.sample_rate 0).den ≠ 0)
    (hrx4 : p.rx_channel_count ≤ 4) (htx4 : p.tx_channel_count ≤ 4) :
    ∃ r, trx_lms7002m_start fp hw s p = some r ∧
      (r.ret = 0 ∨ r.ret = -1) ∧
      HwConsistent hw r.trace ∧
      (r.ret = -1 ↔ ∃ pre e post, r.trace = pre ++ e :: post ∧ e.call.isRateOrLO = true ∧
        (hw pre e.call).status ≠ 0) ∧
      (r.ret = -1 ↔ ∃ e ∈ r.trace, e.call.isRateOrLO = true ∧ e.status ≠ 0) ∧
      (r.ret = 0 ↔ ∀ e ∈ r.trace, e.call.isRateOrLO = true → e.status = 0) ∧
      (∀ pre e post, r.trace = pre ++ e :: post → e.call.isRateOrLO = true →
        e.status ≠ 0 → post = []) ∧
      (∃ rest, start_calls fp s p = r.trace.map HwEvent.call ++ rest ∧
        (r.ret = 0 → rest = [])) ∧
      (start_calls fp s p).filter HwCall.isSetLOFrequency = lo_calls fp p ∧
      (r.ret = 0 → (r.trace.map HwEvent.call).filter HwCall.isSetLOFrequency =
        lo_calls fp p) := by
  obtain ⟨r, hr, rest, hplan, hout⟩ := start_runs fp hw s p hport hden hrx4 htx4
  have hcons : HwConsistent hw r.trace := start_consistent fp hw s p r hr
  have hneg : r.ret = -1 ↔ ∃ e ∈ r.trace, e.call.isRateOrLO = true ∧ e.status ≠ 0 := by
    rcases hout with ⟨h0, _, hok, _⟩ | ⟨h1, hstop, _⟩
    · constructor
      · intro h
        rw [h0] at h
        exact absurd h (by decide)
      · rintro ⟨e, he, hc, hs⟩
        exact absurd (hok e he hc) hs
    · constructor
      · intro _
        obtain ⟨pre, e, h2, h3, h4, _⟩ := hstop
        exact ⟨e, by rw [h2]; simp, h3, h4⟩
      · intro _
        exact h1
  refine ⟨r, hr, ?_, hcons, ?_, hneg, ?_, ?_, ⟨rest, hplan, ?_⟩, start_calls_lo fp s p, ?_⟩
  · rcases hout with ⟨h0, _⟩ | ⟨h1, _⟩
    · exact Or.inl h0
    · exact Or.inr h1
  · rw [hneg]
    constructor
    · rintro ⟨e, he, hc, hs⟩
      obtain ⟨pre, post, hsplit⟩ := List.append_of_mem he
      refine ⟨pre, e, post, hsplit, hc, ?_⟩
      rw [← hcons pre e post hsplit]
      exact hs
    · rintro ⟨pre, e, post, hsplit, hc, hs⟩
      refine ⟨e, by rw [hsplit]; simp, hc, ?_⟩
      rw [hcons pre e post hsplit]
      exact hs
  · rcases hout with ⟨h0, _, hok, _⟩ | ⟨h1, hstop, _⟩
    · exact ⟨fun _ => hok, fun _ => h0⟩
    · constructor
      · intro h
        rw [h1] at h
        exact absurd h (by decide)
      · intro hok
        exact absurd hok (stops_not_ok hstop)
  · intro pre e post hsplit hc hs
    rcases hout with ⟨_, _, hok, _⟩ | ⟨_, hstop, _⟩
    · exact absurd (hok e (by rw [hsplit]; simp) hc) hs
    · obtain ⟨pre1, e1, h2, _, _, hpre⟩ := hstop
      rw [h2] at hsplit
      rcases last_of_append_cons pre post pre1 e e1 hsplit.symm with hp | hmem
      · exact hp
      · exact absurd (hpre e hmem hc) hs
  · intro h0
    rcases hout with ⟨_, hrest, _, _⟩ | ⟨h1, _, _⟩
    · exact hrest
    · rw [h1] at h0
      exact absurd h0 (by decide)
  · intro h0
    rcases hout with ⟨_, hrest, _, _⟩ | ⟨h1, _, _⟩
    · rw [hrest, List.append_nil] at hplan
      rw [← hplan]
      exact start_calls_lo fp s p
    · rw [h1] at h0
      exact absurd h0 (by decide)

/-- Witness for C9 (amended): three RX and three TX channels on a hardware
where the LO call for TX group 2 fails and every other call succeeds; there
the run returns -1 after 23 calls, where it returns 0 on a hardware that
fails no call and -1 after 13 calls on one that fails the rate call. -/
theorem start_fatal_calls_witness :
    (request 3 3).rf_port_count = 1 ∧ ((request 3 3).sample_rate 0).den ≠ 0 ∧
    (request 3 3).rx_channel_count ≤ 4 ∧ (request 3 3).tx_channel_count ≤ 4 ∧
    (trx_lms7002m_start fp_id hw_lo_tx2_fails init_state (request 3 3)).map
      (fun r => (r.ret, r.trace.length)) = some (-1, 23) ∧
    (trx_lms7002m_start fp_id hw_rate_fails init_state (request 3 3)).map
      (fun r => (r.ret, r.trace.length)) = some (-1, 13) ∧
    (trx_lms7002m_start fp_id hw_ok init_state (request 3 3)).map
      (fun r => r.ret) = some 0 ∧
    ∃ r, trx_lms7002m_start fp_id hw_lo_tx2_fails init_state (request 3 3) = some r ∧
      (r.ret = 0 ∨ r.ret = -1) ∧
      HwConsistent hw_lo_tx2_fails r.trace ∧
      (r.ret = -1 ↔ ∃ pre e post, r.trace = pre ++ e :: post ∧ e.call.isRateOrLO = true ∧
        (hw_lo_tx2_fails pre e.call).status ≠ 0) ∧
      (r.ret = -1 ↔ ∃ e ∈ r.trace, e.call.isRateOrLO = true ∧ e.status ≠ 0) ∧
      (r.ret = 0 ↔ ∀ e ∈ r.trace, e.call.isRateOrLO = true → e.status = 0) ∧
      (∀ pre e post, r.trace = pre ++ e :: post → e.call.isRateOrLO = true →
        e.status ≠ 0 → post = []) ∧
      (∃ rest, start_calls fp_id init_state (request 3 3) =
          r.trace.map HwEvent.call ++ rest ∧ (r.ret = 0 → rest = [])) ∧
      (start_calls fp_id init_state (request 3 3)).filter HwCall.isSetLOFrequency =
        lo_calls fp_id (request 3 3) ∧
      (r.ret = 0 → (r.trace.map HwEvent.call).filter HwCall.isSetLOFrequency =
        lo_calls fp_id (request 3 3)) :=
  ⟨rfl, by decide, by decide, by decide, by decide, by decide, by decide,
    start_fatal_calls fp_id hw_lo_tx2_fails init_state (request 3 3) rfl (by decide)
      (by decide) (by decide)⟩

/-- C10 (evaluation at the failing input): with one RX and two TX channels on
a context not loaded from a file, the calls issued before the sample rate is
applied are the enable and gain calls of channel index 0 only; TX channel 1
is neither enabled nor given its gain. -/
theorem start_skips_tx_channel :
    (trx_lms7002m_start fp_id hw_ok init_state (request 1 2)).map
        (fun r => (r.trace.map HwEvent.call).takeWhile fun c => !c.isSetSampleRate) =
      some [.EnableChannel false 0 true, .EnableChannel true 0 true,
            .SetGaindB false 0 40, .SetGaindB true 0 50] := by
  decide

end TrxLms7002m
